import Mathlib

/-
Shallow embedding of the NimbleSM contact-manager core
(src/src/nimble_contact_manager.cc) and verification of the frozen claims
about it.  C++ doubles are modelled as real numbers; the geometric kernels
(ContactManager::Projection, SimpleClosestPointProjectionSingle,
ClosestPointProjectionSingle), the mesh skinning (SkinBlocks), the
partition-boundary face removal (RemoveInternalSkinFaces), the contact-entity
construction (CreateContactNodesAndFaces and the secondary-node loop of
CreateContactEntities) and the displacement/force transfer
(ApplyDisplacements, GetForces) are translated function by function.
-/

open Classical

set_option maxHeartbeats 1600000

/-! ### Basic 3-vector geometry -/

/-- A 3-component vector of reals, modelling a C++ double[3]. -/
structure Vec3 where
  x : ℝ
  y : ℝ
  z : ℝ

/-- Componentwise subtraction, as in the loops computing u, v, w. -/
def vsub (a b : Vec3) : Vec3 :=
  ⟨a.x - b.x, a.y - b.y, a.z - b.z⟩

/-- Dot product, written out as in the source (a[0]*b[0] + a[1]*b[1] + a[2]*b[2]). -/
def dot (a b : Vec3) : ℝ :=
  a.x * b.x + a.y * b.y + a.z * b.z

/-- Modelled from the spec: CrossProduct lives in nimble_utils.h, which is not
under src; the spec (section 4.4) prescribes the standard cross product n = u x v. -/
def CrossProduct (u v : Vec3) : Vec3 :=
  ⟨u.y * v.z - u.z * v.y, u.z * v.x - u.x * v.z, u.x * v.y - u.y * v.x⟩

/-- Squared distance between two points, as computed inline in
ClosestPointProjectionSingle (x*x + y*y + z*z with x = a[0]-b[0], ...). -/
def distSq (a b : Vec3) : ℝ :=
  (a.x - b.x) * (a.x - b.x) + (a.y - b.y) * (a.y - b.y) + (a.z - b.z) * (a.z - b.z)

/-- A triangular contact facet: the three current vertex coordinates and the
characteristic length carried by the ContactEntity. -/
structure Tri where
  p1 : Vec3
  p2 : Vec3
  p3 : Vec3
  charLen : ℝ

/-- PROJECTION_TYPE from nimble_contact_manager.h. -/
inductive ProjectionType where
  | UNKNOWN : ProjectionType
  | NODE_OR_EDGE : ProjectionType
  | FACE : ProjectionType
deriving DecidableEq

/-! ### Shared barycentric quantities

The three kernels all start from the same computation: edge vectors
u = p2-p1, v = p3-p1, w = p-p1, the non-unit normal n = u x v,
n_squared = n.n, and the barycentric weights.  We name these once and use
them in each translated kernel. -/

/-- Edge vector u = p2 - p1 of a facet. -/
def uOf (t : Tri) : Vec3 := vsub t.p2 t.p1

/-- Edge vector v = p3 - p1 of a facet. -/
def vOf (t : Tri) : Vec3 := vsub t.p3 t.p1

/-- Vector w = p - p1 from the facet base vertex to the node. -/
def wOf (p : Vec3) (t : Tri) : Vec3 := vsub p t.p1

/-- The outward non-unit normal n = u x v of a facet. -/
def triNormal (t : Tri) : Vec3 := CrossProduct (uOf t) (vOf t)

/-- n_squared = n[0]*n[0] + n[1]*n[1] + n[2]*n[2]. -/
def nSqOf (t : Tri) : ℝ := dot (triNormal t) (triNormal t)

/-- Barycentric weight gamma (called alpha3 in Projection):
((u x w) . n) / n_squared. -/
noncomputable def alpha3Of (p : Vec3) (t : Tri) : ℝ :=
  dot (CrossProduct (uOf t) (wOf p t)) (triNormal t) / nSqOf t

/-- Barycentric weight beta (called alpha2 in Projection):
((w x v) . n) / n_squared. -/
noncomputable def alpha2Of (p : Vec3) (t : Tri) : ℝ :=
  dot (CrossProduct (wOf p t) (vOf t)) (triNormal t) / nSqOf t

/-- Barycentric weight alpha (called alpha1 in Projection): 1 - alpha2 - alpha3. -/
noncomputable def alpha1Of (p : Vec3) (t : Tri) : ℝ :=
  1 - alpha2Of p t - alpha3Of p t

/-- The projected point alpha1*p1 + alpha2*p2 + alpha3*p3. -/
noncomputable def projPoint (p : Vec3) (t : Tri) : Vec3 :=
  ⟨alpha1Of p t * t.p1.x + alpha2Of p t * t.p2.x + alpha3Of p t * t.p3.x,
   alpha1Of p t * t.p1.y + alpha2Of p t * t.p2.y + alpha3Of p t * t.p3.y,
   alpha1Of p t * t.p1.z + alpha2Of p t * t.p2.z + alpha3Of p t * t.p3.z⟩

/-- The in-range test of Projection and SimpleClosestPointProjectionSingle:
each weight satisfies (w > -tol && w < 1.0 + tol); both bounds are strict
in the source. -/
def inRangeOpen (p : Vec3) (t : Tri) (tol : ℝ) : Prop :=
  (alpha1Of p t > -tol ∧ alpha1Of p t < 1 + tol) ∧
  (alpha2Of p t > -tol ∧ alpha2Of p t < 1 + tol) ∧
  (alpha3Of p t > -tol ∧ alpha3Of p t < 1 + tol)

/-- The unit normal (n[0]*s, n[1]*s, n[2]*s) with s = 1/sqrt(n_squared),
exactly as computed in the in-range branch of the kernels. -/
noncomputable def unitNormalCode (t : Tri) : Vec3 :=
  ⟨(triNormal t).x * (1 / Real.sqrt (nSqOf t)),
   (triNormal t).y * (1 / Real.sqrt (nSqOf t)),
   (triNormal t).z * (1 / Real.sqrt (nSqOf t))⟩

/-- The signed gap (p - projected point) . normal, as computed by
gap = dx*normal[0] + dy*normal[1] + dz*normal[2]. -/
noncomputable def gapOf (p : Vec3) (t : Tri) : ℝ :=
  dot (vsub p (projPoint p t)) (unitNormalCode t)

/-! ### ContactManager::Projection (lines 1598-1669) -/

/-- Result record for ContactManager::Projection.  The C++ routine returns
through out-parameters in, gap, normal, barycentric_coordinates; the fields
that the routine does not write keep their incoming values, so the incoming
values are arguments of the embedding.  The in flag is modelled as a Prop
(the branch condition the code tests before setting it to true). -/
structure ProjectionResult where
  inContact : Prop
  gap : ℝ
  normal : Vec3
  bary : Vec3

/-- ContactManager::Projection.  Computes the barycentric weights; when each
weight w satisfies w > -tol && w < 1+tol it writes the unit normal, the
signed gap and the weights, and sets in to (gap < 0.0) && (gap > -tri.char_len_);
otherwise every out-parameter keeps its incoming value (in was set to false). -/
noncomputable def Projection (p : Vec3) (t : Tri) (gap0 : ℝ) (normal0 bary0 : Vec3)
    (tol : ℝ) : ProjectionResult :=
  if inRangeOpen p t tol then
    { inContact := gapOf p t < 0 ∧ gapOf p t > -t.charLen
      gap := gapOf p t
      normal := unitNormalCode t
      bary := ⟨alpha1Of p t, alpha2Of p t, alpha3Of p t⟩ }
  else
    { inContact := False, gap := gap0, normal := normal0, bary := bary0 }

/-- Result record for SimpleClosestPointProjectionSingle (projection type,
closest point, gap, normal; unwritten out-parameters keep incoming values). -/
structure SimpleProjResult where
  ptype : ProjectionType
  closest : Vec3
  gap : ℝ
  normal : Vec3

/-- ContactManager::SimpleClosestPointProjectionSingle (lines 1516-1584).
Same barycentric computation as Projection; inside the facet it reports FACE
with the projected point, gap and unit normal, otherwise it reports UNKNOWN
and leaves the other out-parameters untouched. -/
noncomputable def SimpleClosestPointProjectionSingle (p : Vec3) (t : Tri)
    (closest0 : Vec3) (gap0 : ℝ) (normal0 : Vec3) (tol : ℝ) : SimpleProjResult :=
  if inRangeOpen p t tol then
    { ptype := ProjectionType.FACE
      closest := projPoint p t
      gap := gapOf p t
      normal := unitNormalCode t }
  else
    { ptype := ProjectionType.UNKNOWN, closest := closest0, gap := gap0, normal := normal0 }

/-! ### Spec-side formulations used to state the claims -/

/-- The outward unit normal written as the spec writes it: n / |n|. -/
noncomputable def specUnitNormal (t : Tri) : Vec3 :=
  ⟨(triNormal t).x / Real.sqrt (dot (triNormal t) (triNormal t)),
   (triNormal t).y / Real.sqrt (dot (triNormal t) (triNormal t)),
   (triNormal t).z / Real.sqrt (dot (triNormal t) (triNormal t))⟩

/-- The closed-interval membership the claim asserts: every weight lies in
[-tol, 1+tol]. -/
def inRangeClosed (p : Vec3) (t : Tri) (tol : ℝ) : Prop :=
  (-tol ≤ alpha1Of p t ∧ alpha1Of p t ≤ 1 + tol) ∧
  (-tol ≤ alpha2Of p t ∧ alpha2Of p t ≤ 1 + tol) ∧
  (-tol ≤ alpha3Of p t ∧ alpha3Of p t ≤ 1 + tol)

/-- Claim C1 exactly as stated: with every barycentric weight in the closed
interval [-tol, 1+tol] the projection returns the outward unit normal, the
projected point and the signed gap, and reports contact iff
gap < 0 and gap > -characteristic length; with some weight outside that
interval the simple projection reports UNKNOWN and in stays false. -/
def ClaimC1 : Prop :=
  ∀ (p : Vec3) (t : Tri) (gap0 sgap0 tol : ℝ) (normal0 bary0 closest0 snormal0 : Vec3),
    (inRangeClosed p t tol →
      (Projection p t gap0 normal0 bary0 tol).normal = specUnitNormal t ∧
      (SimpleClosestPointProjectionSingle p t closest0 sgap0 snormal0 tol).closest =
        projPoint p t ∧
      (Projection p t gap0 normal0 bary0 tol).gap =
        dot (vsub p (projPoint p t)) (specUnitNormal t) ∧
      ((Projection p t gap0 normal0 bary0 tol).inContact ↔
        (Projection p t gap0 normal0 bary0 tol).gap < 0 ∧
        (Projection p t gap0 normal0 bary0 tol).gap > -t.charLen)) ∧
    (¬ inRangeClosed p t tol →
      (SimpleClosestPointProjectionSingle p t closest0 sgap0 snormal0 tol).ptype =
        ProjectionType.UNKNOWN ∧
      ¬ (Projection p t gap0 normal0 bary0 tol).inContact)

/-! ### ContactManager::ClosestPointProjectionSingle (lines 1348-1512) -/

/-- Modelled from the spec: PointEdgeClosestPointFindT lives in
nimble_utils.h, which is not under src; the spec (section 4.4) prescribes the
parametric foot-of-perpendicular on the edge from p1 to p2. -/
noncomputable def PointEdgeClosestPointFindT (p1 p2 p : Vec3) : ℝ :=
  dot (vsub p p1) (vsub p2 p1) / dot (vsub p2 p1) (vsub p2 p1)

/-- The point p1 + (p2 - p1)*t on the edge, the expression used for
min_case 4, 5 and 6 in the closing switch. -/
def edgePoint (p1 p2 : Vec3) (t : ℝ) : Vec3 :=
  ⟨p1.x + (p2.x - p1.x) * t, p1.y + (p2.y - p1.y) * t, p1.z + (p2.z - p1.z) * t⟩

/-- Modelled from the spec: PointEdgeClosestPointFindDistanceSquared lives in
nimble_utils.h, which is not under src; the spec (section 4.4) compares edge
candidates by the squared distance from the node to the foot point. -/
def PointEdgeClosestPointFindDistanceSquared (p1 p2 p : Vec3) (t : ℝ) : ℝ :=
  distSq (edgePoint p1 p2 t) p

/-! The vertex/edge fallback of ClosestPointProjectionSingle threads the
running minimum squared distance, the parameter of the last winning edge
candidate (min_distance_squared_t, left uninitialized by the source until an
edge wins, modelled by the arbitrary starting value 0) and min_case through
the six candidate tests.  Each assignment of the straight-line source code is
a named state here; fbS2 combines the initialization with the vertex-2 test. -/

/-- Fallback state after the vertex 1 initialization and the vertex 2 test. -/
noncomputable def fbS2 (p p1 p2 : Vec3) : ℝ × ℝ × ℕ :=
  if distSq p2 p < distSq p1 p then (distSq p2 p, 0, 2) else (distSq p1 p, 0, 1)

/-- Fallback state after the vertex 3 test. -/
noncomputable def fbS3 (p p1 p2 p3 : Vec3) : ℝ × ℝ × ℕ :=
  if distSq p3 p < (fbS2 p p1 p2).1 then (distSq p3 p, (fbS2 p p1 p2).2.1, 3)
  else fbS2 p p1 p2

/-- Fallback state after the edge 1-2 test (entered only when the edge
parameter t lies strictly in (0,1)). -/
noncomputable def fbS4 (p p1 p2 p3 : Vec3) : ℝ × ℝ × ℕ :=
  if PointEdgeClosestPointFindT p1 p2 p > 0 ∧ PointEdgeClosestPointFindT p1 p2 p < 1 then
    if PointEdgeClosestPointFindDistanceSquared p1 p2 p (PointEdgeClosestPointFindT p1 p2 p)
        < (fbS3 p p1 p2 p3).1 then
      (PointEdgeClosestPointFindDistanceSquared p1 p2 p (PointEdgeClosestPointFindT p1 p2 p),
       PointEdgeClosestPointFindT p1 p2 p, 4)
    else fbS3 p p1 p2 p3
  else fbS3 p p1 p2 p3

/-- Fallback state after the edge 2-3 test. -/
noncomputable def fbS5 (p p1 p2 p3 : Vec3) : ℝ × ℝ × ℕ :=
  if PointEdgeClosestPointFindT p2 p3 p > 0 ∧ PointEdgeClosestPointFindT p2 p3 p < 1 then
    if PointEdgeClosestPointFindDistanceSquared p2 p3 p (PointEdgeClosestPointFindT p2 p3 p)
        < (fbS4 p p1 p2 p3).1 then
      (PointEdgeClosestPointFindDistanceSquared p2 p3 p (PointEdgeClosestPointFindT p2 p3 p),
       PointEdgeClosestPointFindT p2 p3 p, 5)
    else fbS4 p p1 p2 p3
  else fbS4 p p1 p2 p3

/-- Fallback state after the edge 3-1 test. -/
noncomputable def fbS6 (p p1 p2 p3 : Vec3) : ℝ × ℝ × ℕ :=
  if PointEdgeClosestPointFindT p3 p1 p > 0 ∧ PointEdgeClosestPointFindT p3 p1 p < 1 then
    if PointEdgeClosestPointFindDistanceSquared p3 p1 p (PointEdgeClosestPointFindT p3 p1 p)
        < (fbS5 p p1 p2 p3).1 then
      (PointEdgeClosestPointFindDistanceSquared p3 p1 p (PointEdgeClosestPointFindT p3 p1 p),
       PointEdgeClosestPointFindT p3 p1 p, 6)
    else fbS5 p p1 p2 p3
  else fbS5 p p1 p2 p3

/-- The closing switch on min_case: decode the winning candidate. -/
noncomputable def fbPoint (p1 p2 p3 : Vec3) (s : ℝ × ℝ × ℕ) : Vec3 :=
  match s.2.2 with
  | 2 => p2
  | 3 => p3
  | 4 => edgePoint p1 p2 s.2.1
  | 5 => edgePoint p2 p3 s.2.1
  | 6 => edgePoint p3 p1 s.2.1
  | _ => p1

/-- The complete vertex/edge fallback of ClosestPointProjectionSingle. -/
noncomputable def cppFallback (p p1 p2 p3 : Vec3) : Vec3 :=
  fbPoint p1 p2 p3 (fbS6 p p1 p2 p3)

/-- The weight-near-zero test (w > -tol && w < tol) used for the
FACE / NODE_OR_EDGE classification. -/
def isZeroW (w tol : ℝ) : Prop := w > -tol ∧ w < tol

/-- Result record of ClosestPointProjectionSingle (closest point and type;
both out-parameters are always written). -/
structure CPPResult where
  closest : Vec3
  ptype : ProjectionType

/-- ContactManager::ClosestPointProjectionSingle.  Inside the open range the
closest point is the barycentric combination, NODE_OR_EDGE when some weight is
near zero and FACE otherwise; outside, the fallback scans the three vertices
and the three admissible edge feet for the smallest squared distance. -/
noncomputable def ClosestPointProjectionSingle (p : Vec3) (t : Tri) (tol : ℝ) : CPPResult :=
  if inRangeOpen p t tol then
    { closest := projPoint p t
      ptype :=
        if isZeroW (alpha1Of p t) tol ∨ isZeroW (alpha2Of p t) tol ∨ isZeroW (alpha3Of p t) tol
        then ProjectionType.NODE_OR_EDGE
        else ProjectionType.FACE }
  else
    { closest := cppFallback p t.p1 t.p2 t.p3, ptype := ProjectionType.NODE_OR_EDGE }

/-- The candidate enumeration of the fallback in source order: vertex 2,
vertex 3, then each edge foot whose parameter lies strictly in (0,1)
(vertex 1 is the starting value of the scan). -/
noncomputable def candList (p p1 p2 p3 : Vec3) : List Vec3 :=
  [p2, p3] ++
  (if PointEdgeClosestPointFindT p1 p2 p > 0 ∧ PointEdgeClosestPointFindT p1 p2 p < 1 then
    [edgePoint p1 p2 (PointEdgeClosestPointFindT p1 p2 p)] else []) ++
  (if PointEdgeClosestPointFindT p2 p3 p > 0 ∧ PointEdgeClosestPointFindT p2 p3 p < 1 then
    [edgePoint p2 p3 (PointEdgeClosestPointFindT p2 p3 p)] else []) ++
  (if PointEdgeClosestPointFindT p3 p1 p > 0 ∧ PointEdgeClosestPointFindT p3 p1 p < 1 then
    [edgePoint p3 p1 (PointEdgeClosestPointFindT p3 p1 p)] else [])

/-- First-argmin fold over the candidates: keep the current best unless a
later candidate is strictly closer. -/
noncomputable def nearestFold (p b : Vec3) (l : List Vec3) : Vec3 :=
  l.foldl (fun best c => if distSq c p < distSq best p then c else best) b

/-- The candidate point kept by the scan after the vertex 2 test. -/
noncomputable def fbV2 (p p1 p2 : Vec3) : Vec3 :=
  if distSq p2 p < distSq p1 p then p2 else p1

/-- The candidate point kept by the scan after the vertex 3 test. -/
noncomputable def fbV3 (p p1 p2 p3 : Vec3) : Vec3 :=
  if distSq p3 p < distSq (fbV2 p p1 p2) p then p3 else fbV2 p p1 p2

/-- The candidate point kept by the scan after the edge 1-2 test. -/
noncomputable def fbV4 (p p1 p2 p3 : Vec3) : Vec3 :=
  if PointEdgeClosestPointFindT p1 p2 p > 0 ∧ PointEdgeClosestPointFindT p1 p2 p < 1 then
    if distSq (edgePoint p1 p2 (PointEdgeClosestPointFindT p1 p2 p)) p
        < distSq (fbV3 p p1 p2 p3) p then
      edgePoint p1 p2 (PointEdgeClosestPointFindT p1 p2 p)
    else fbV3 p p1 p2 p3
  else fbV3 p p1 p2 p3

/-- The candidate point kept by the scan after the edge 2-3 test. -/
noncomputable def fbV5 (p p1 p2 p3 : Vec3) : Vec3 :=
  if PointEdgeClosestPointFindT p2 p3 p > 0 ∧ PointEdgeClosestPointFindT p2 p3 p < 1 then
    if distSq (edgePoint p2 p3 (PointEdgeClosestPointFindT p2 p3 p)) p
        < distSq (fbV4 p p1 p2 p3) p then
      edgePoint p2 p3 (PointEdgeClosestPointFindT p2 p3 p)
    else fbV4 p p1 p2 p3
  else fbV4 p p1 p2 p3

/-- The candidate point kept by the scan after the edge 3-1 test. -/
noncomputable def fbV6 (p p1 p2 p3 : Vec3) : Vec3 :=
  if PointEdgeClosestPointFindT p3 p1 p > 0 ∧ PointEdgeClosestPointFindT p3 p1 p < 1 then
    if distSq (edgePoint p3 p1 (PointEdgeClosestPointFindT p3 p1 p)) p
        < distSq (fbV5 p p1 p2 p3) p then
      edgePoint p3 p1 (PointEdgeClosestPointFindT p3 p1 p)
    else fbV5 p p1 p2 p3
  else fbV5 p p1 p2 p3

/-- The strict classification interval the claim asserts for FACE: every
weight strictly inside (tol, 1 - tol). -/
def strictlyInsideW (p : Vec3) (t : Tri) (tol : ℝ) : Prop :=
  (tol < alpha1Of p t ∧ alpha1Of p t < 1 - tol) ∧
  (tol < alpha2Of p t ∧ alpha2Of p t < 1 - tol) ∧
  (tol < alpha3Of p t ∧ alpha3Of p t < 1 - tol)

/-- Claim C2 exactly as stated: with every weight in the closed interval
[-tol, 1+tol] the closest point is the barycentric combination, FACE iff all
weights are strictly inside (tol, 1-tol) and NODE_OR_EDGE otherwise; with a
weight out of range the result is the nearest of the six candidates (three
vertices, three admissible edge feet), ties broken in enumeration order,
classified NODE_OR_EDGE. -/
def ClaimC2 : Prop :=
  ∀ (p : Vec3) (t : Tri) (tol : ℝ),
    (inRangeClosed p t tol →
      (ClosestPointProjectionSingle p t tol).closest = projPoint p t ∧
      (strictlyInsideW p t tol →
        (ClosestPointProjectionSingle p t tol).ptype = ProjectionType.FACE) ∧
      (¬ strictlyInsideW p t tol →
        (ClosestPointProjectionSingle p t tol).ptype = ProjectionType.NODE_OR_EDGE)) ∧
    (¬ inRangeClosed p t tol →
      (ClosestPointProjectionSingle p t tol).ptype = ProjectionType.NODE_OR_EDGE ∧
      ∃ l1 x l2, t.p1 :: candList p t.p1 t.p2 t.p3 = l1 ++ x :: l2 ∧
        (ClosestPointProjectionSingle p t tol).closest = x ∧
        (∀ y ∈ t.p1 :: candList p t.p1 t.p2 t.p3, distSq x p ≤ distSq y p) ∧
        (∀ y ∈ l1, distSq x p < distSq y p))

/-! ### Mesh skinning (ContactManager::SkinBlocks, lines 814-959) -/

/-- A hexahedral element as SkinBlocks reads it: eight connectivity entries
(mesh-local node ids, Exodus corner ordering) and its 0-based global id. -/
structure HexElement where
  conn : Fin 8 → ℕ
  globalId : ℕ

/-- One element block of the requested block list. -/
structure HexBlock where
  elems : List HexElement

/-- The per-face data SkinBlocks keeps in its map: the sort-invariant key,
the unsorted node list, the 1-based element global id and the face ordinal
(the count lives next to it in the map entry). -/
structure FaceRec where
  key : List ℕ
  nodes : List ℕ
  elemGlobalId : ℕ
  ordinal : ℕ
deriving DecidableEq

/-- std::sort on the four node ids of a face. -/
def sortKey (l : List ℕ) : List ℕ := l.insertionSort (· ≤ ·)

/-- Build the face record for one corner template of an element. -/
def mkFace (e : HexElement) (a b c d : Fin 8) (ord : ℕ) : FaceRec :=
  { key := sortKey [e.conn a, e.conn b, e.conn c, e.conn d]
    nodes := [e.conn a, e.conn b, e.conn c, e.conn d]
    elemGlobalId := e.globalId + 1
    ordinal := ord }

/-- The six faces of a hex element with the corner templates of the source:
face 0: 0 1 5 4, face 1: 1 2 6 5, face 2: 2 3 7 6, face 3: 0 4 7 3,
face 4: 0 3 2 1, face 5: 4 5 6 7. -/
def hexFaces (e : HexElement) : List FaceRec :=
  [mkFace e 0 1 5 4 0,
   mkFace e 1 2 6 5 1,
   mkFace e 2 3 7 6 2,
   mkFace e 0 4 7 3 3,
   mkFace e 0 3 2 1 4,
   mkFace e 4 5 6 7 5]

/-- Every face of every element of every requested block, in program order. -/
def allFaces (blocks : List HexBlock) : List FaceRec :=
  (blocks.flatMap (fun b => b.elems)).flatMap hexFaces

/-- One map insertion: a present key gets its count bumped (keeping the
first-inserted record, as std::map does), an absent key is added with
count 1. -/
def bumpFace : List (List ℕ × ℕ × FaceRec) → FaceRec → List (List ℕ × ℕ × FaceRec)
  | [], f => [(f.key, 1, f)]
  | (k, c, r) :: tl, f =>
    if k = f.key then (k, c + 1, r) :: tl else (k, c, r) :: bumpFace tl f

/-- The face-count map after all insertions.  The C++ std::map iterates in
key order; entries are kept here in first-insertion order, which the claims
(all membership-based) do not distinguish. -/
def facesMap (blocks : List HexBlock) : List (List ℕ × ℕ × FaceRec) :=
  (allFaces blocks).foldl bumpFace []

/-- The packed entity id emitted for a skin face:
(elem_global_id_1_based + offset) << 5 | face_ordinal << 2 | 0. -/
def skinEntityId (r : FaceRec) (offset : ℕ) : ℕ :=
  ((r.elemGlobalId + offset) <<< 5) ||| (r.ordinal <<< 2) ||| 0

/-- The emission loop of SkinBlocks over the map entries: count 1 emits the
unsorted face and its entity id, count 2 is an interior face and is skipped,
any other count is NIMBLE_ABORT (modelled as none). -/
def emitFaces (offset : ℕ) : List (List ℕ × ℕ × FaceRec) → Option (List (List ℕ) × List ℕ)
  | [] => some ([], [])
  | (_, c, r) :: tl =>
    if c = 1 then
      match emitFaces offset tl with
      | some (fs, ids) => some (r.nodes :: fs, skinEntityId r offset :: ids)
      | none => none
    else if c = 2 then emitFaces offset tl
    else none

/-- ContactManager::SkinBlocks: count every face of the requested blocks by
sort-invariant key, then emit the faces observed exactly once. -/
def SkinBlocks (blocks : List HexBlock) (offset : ℕ) : Option (List (List ℕ) × List ℕ) :=
  emitFaces offset (facesMap blocks)

/-- Map lookup by key. -/
def lookupKey : List (List ℕ × ℕ × FaceRec) → List ℕ → Option (ℕ × FaceRec)
  | [], _ => none
  | (k, c, r) :: tl, key => if k = key then some (c, r) else lookupKey tl key

/-- Number of generated faces carrying a given key. -/
def occKey (fs : List FaceRec) (k : List ℕ) : ℕ :=
  fs.countP (fun f => decide (f.key = k))

/-- The first generated face carrying a given key. -/
def firstKey (fs : List FaceRec) (k : List ℕ) : Option FaceRec :=
  fs.find? (fun f => decide (f.key = k))

/-! ### Secondary contact nodes (CreateContactEntities, lines 302-346) -/

/-- The running state of the secondary-node loop: the recorded submodel node
ids, their entity ids, and the characteristic-length map
(secondary_node_char_lens; a std::map of doubles, modelled as a total
function that is only ever read at keys previously written). -/
structure SecState where
  ids : List ℕ
  entityIds : List ℕ
  lens : ℕ → ℝ

/-- Squared length of edge i of a face: from node i to node i+1, wrapping to
node 0 after the last node, from current submodel coordinates. -/
def faceEdgeSq (coord : ℕ → Vec3) (face : List ℕ) (i : ℕ) : ℝ :=
  distSq (coord (face.getD (if i + 1 < face.length then i + 1 else 0) 0))
         (coord (face.getD i 0))

/-- The squared lengths of all edges of a face, in loop order. -/
def faceEdgesSq (coord : ℕ → Vec3) (face : List ℕ) : List ℝ :=
  (List.range face.length).map (faceEdgeSq coord face)

/-- The strict-greater maximum scan of the source.  The source starts from
lowest(), which every subsequent value exceeds, so the scan equals the fold
started from the first value (0 for an empty list, which the source never
produces for a well-formed face). -/
noncomputable def maxFold : List ℝ → ℝ
  | [] => 0
  | x :: tl => tl.foldl (fun m e => if e > m then e else m) x

/-- Characteristic length of a secondary face: sqrt of the maximal squared
edge length over the edges with wrap-around. -/
noncomputable def secCharLen (coord : ℕ → Vec3) (face : List ℕ) : ℝ :=
  Real.sqrt (maxFold (faceEdgesSq coord face))

/-- The body of the per-node loop (lines 325-345): ghosted nodes are
skipped; an unseen node is recorded together with its entity id (mesh node
global id + 1, where gids composes node_ids_ with genesis_node_global_ids)
and the face's characteristic length; a seen node keeps the larger of the
stored and the current characteristic length. -/
noncomputable def secStep (gids : ℕ → ℕ) (ghosted : List ℕ) (cl : ℝ)
    (st : SecState) (nodeId : ℕ) : SecState :=
  if nodeId ∈ ghosted then st
  else if nodeId ∉ st.ids then
    { ids := st.ids ++ [nodeId]
      entityIds := st.entityIds ++ [gids nodeId + 1]
      lens := Function.update st.lens nodeId cl }
  else
    if st.lens nodeId < cl then { st with lens := Function.update st.lens nodeId cl }
    else st

/-- The secondary-node loop of CreateContactEntities: fold the per-node body
over every node of every secondary skin face. -/
noncomputable def secondaryNodes (coord : ℕ → Vec3) (gids : ℕ → ℕ) (ghosted : List ℕ)
    (faces : List (List ℕ)) : SecState :=
  faces.foldl
    (fun st face => face.foldl (secStep gids ghosted (secCharLen coord face)) st)
    { ids := [], entityIds := [], lens := fun _ => 0 }

/-- The finalized packed entity id of a contact triangle: 1-based element
global id plus offset in the high bits, then the face ordinal, then the
triangle ordinal. -/
def packedFaceId (egid1b offset f t : ℕ) : ℕ :=
  ((egid1b + offset) <<< 5) ||| (f <<< 2) ||| t

/-! ### Triangulation of primary faces (CreateContactNodesAndFaces,
lines 1068-1230).  coord n stands for the triple
(coord_[3n], coord_[3n+1], coord_[3n+2]) of the submodel coordinate array. -/

/-- A TRIANGLE contact entity as constructed for a primary face: packed
entity id, local index, the three vertex coordinate triples, characteristic
length, the two real node ids and the four face nodes behind the fictitious
vertex. -/
structure ContactTriangle where
  entityId : ℕ
  localIndex : ℕ
  v1 : Vec3
  v2 : Vec3
  v3 : Vec3
  charLen : ℝ
  nodeId1 : ℕ
  nodeId2 : ℕ
  fictitiousNodeIds : List ℕ

/-- Default triangle, for getD over triangle lists. -/
noncomputable instance : Inhabited ContactTriangle :=
  ⟨⟨0, 0, ⟨0, 0, 0⟩, ⟨0, 0, 0⟩, ⟨0, 0, 0⟩, 0, 0, 0, []⟩⟩

/-- Edge lengths (Euclidean, sqrt of the squared edge) of a face in loop
order, as the characteristic-length loop of CreateContactNodesAndFaces
computes them. -/
noncomputable def faceEdgeLens (coord : ℕ → Vec3) (face : List ℕ) : List ℝ :=
  (List.range face.length).map (fun i => Real.sqrt (faceEdgeSq coord face i))

/-- Characteristic length of a primary face: the strict-greater maximum scan
over the edge lengths (started, like the source's lowest(), below every
value, hence from the first edge). -/
noncomputable def primCharLen (coord : ℕ → Vec3) (face : List ℕ) : ℝ :=
  maxFold (faceEdgeLens coord face)

/-- The fictitious barycenter node: componentwise sum of the face node
coordinates divided by the node count. -/
noncomputable def fictitiousNode (coord : ℕ → Vec3) (face : List ℕ) : Vec3 :=
  ⟨(face.map (fun n => (coord n).x)).sum / face.length,
   (face.map (fun n => (coord n).y)).sum / face.length,
   (face.map (fun n => (coord n).z)).sum / face.length⟩

/-- One triangle of the fan: real nodes n1, n2 and the fictitious vertex. -/
noncomputable def mkTri (coord : ℕ → Vec3) (face : List ℕ) (eid idx t n1 n2 : ℕ) :
    ContactTriangle :=
  { entityId := eid ||| t
    localIndex := idx + t
    v1 := coord n1
    v2 := coord n2
    v3 := fictitiousNode coord face
    charLen := primCharLen coord face
    nodeId1 := n1
    nodeId2 := n2
    fictitiousNodeIds := face }

/-- The four triangles of one primary face, in source order:
(node 0, node 1), (node 1, node 2), (node 2, node 3), (node 3, node 0),
each fanned to the fictitious barycenter. -/
noncomputable def mkTriangles (coord : ℕ → Vec3) (face : List ℕ) (eid idx : ℕ) :
    List ContactTriangle :=
  [mkTri coord face eid idx 0 (face.getD 0 0) (face.getD 1 0),
   mkTri coord face eid idx 1 (face.getD 1 0) (face.getD 2 0),
   mkTri coord face eid idx 2 (face.getD 2 0) (face.getD 3 0),
   mkTri coord face eid idx 3 (face.getD 3 0) (face.getD 0 0)]

/-- The primary-face loop of CreateContactNodesAndFaces: each face must have
exactly 4 nodes (otherwise NIMBLE_ABORT, modelled as none) and contributes
4 triangles at consecutive indices. -/
noncomputable def createContactFacesAux (coord : ℕ → Vec3) :
    List (List ℕ × ℕ) → ℕ → Option (List ContactTriangle)
  | [], _ => some []
  | (face, eid) :: tl, idx =>
    if face.length ≠ 4 then none
    else
      match createContactFacesAux coord tl (idx + 4) with
      | none => none
      | some rest => some (mkTriangles coord face eid idx ++ rest)

/-- The primary-face half of CreateContactNodesAndFaces over the parallel
face and entity-id lists. -/
noncomputable def createContactFaces (coord : ℕ → Vec3) (faces : List (List ℕ))
    (ids : List ℕ) : Option (List ContactTriangle) :=
  createContactFacesAux coord (faces.zip ids) 0

/-! ### Partition-boundary face removal (RemoveInternalSkinFaces,
lines 963-1066).  The MPI ring exchange delivers, over all N-1 rounds, a
list of sorted global-node-id quadruples from the other ranks; that list is
the received input here. -/

/-- The sorted global-node-id key of a local face (fvec of the source:
the face's node ids mapped to genesis global ids and sorted). -/
def faceKeys (gids : ℕ → ℕ) (faces : List (List ℕ)) : List (List ℕ) :=
  faces.map (fun face => sortKey (face.map gids))

/-- Search for the first local face whose key equals the received quadruple.
The source's faceList std::map is built with emplace, which keeps the first
insertion for a duplicated key, so its lookup returns the first matching
index. -/
def faceLookupAux : List (List ℕ) → List ℕ → ℕ → Option ℕ
  | [], _, _ => none
  | k :: tl, q, i => if k = q then some i else faceLookupAux tl q (i + 1)

/-- Lookup of a received quadruple in the face-key list. -/
def faceLookup (keys : List (List ℕ)) (q : List ℕ) : Option ℕ :=
  faceLookupAux keys q 0

/-- The removal-flag loop: each received quadruple that matches a local face
key marks that face (remove_face_hash and remove_entity_ids_hash are set at
the same index together). -/
def markFlags (keys : List (List ℕ)) (received : List (List ℕ))
    (flags : List Bool) : List Bool :=
  received.foldl
    (fun fl q =>
      match faceLookup keys q with
      | some i => fl.set i true
      | none => fl) flags

/-- The compaction loop: drop the entries whose flag is set, keeping the
rest in order. -/
def compact {α : Type} : List α → List Bool → List α
  | [], _ => []
  | x :: xs, [] => x :: xs
  | x :: xs, b :: bs => if b then compact xs bs else x :: compact xs bs

/-- ContactManager::RemoveInternalSkinFaces: mark every local face whose
sorted global-id quadruple was received from another rank, then compact both
the face list and the entity-id list (when nothing is marked the source
returns early with both lists unchanged, which the unconditional compaction
also produces). -/
def RemoveInternalSkinFaces (gids : ℕ → ℕ) (received : List (List ℕ))
    (faces : List (List ℕ)) (entityIds : List ℕ) : List (List ℕ) × List ℕ :=
  (compact faces (markFlags (faceKeys gids faces) received
      (List.replicate faces.length false)),
   compact entityIds (markFlags (faceKeys gids faces) received
      (List.replicate faces.length false)))

/-! ### ApplyDisplacements (lines 731-742) and GetForces (lines 744-751).
Flat arrays (coord_, model_coord_, force_, displacement, contact_force) are
functions from flat index to real; nodeIds is node_ids_. -/

/-- The coordinate triple stored at a node in a flat array. -/
def coordTriple (coord : ℕ → ℝ) (n : ℕ) : Vec3 :=
  ⟨coord (3 * n), coord (3 * n + 1), coord (3 * n + 2)⟩

/-- The coordinate update loop of ApplyDisplacements: slot 3*i+c receives
model_coord[3*i+c] + displacement[3*node_ids_[i]+c]; the slot index k
decomposes as i = k / 3, c = k % 3. -/
def applyDisplacementsCoord (nodeIds : ℕ → ℕ) (modelCoord disp : ℕ → ℝ) : ℕ → ℝ :=
  fun k => modelCoord k + disp (3 * nodeIds (k / 3) + k % 3)

/-- A NODE contact entity (single vertex). -/
structure ContactNodeEntity where
  entityId : ℕ
  localIndex : ℕ
  v1 : Vec3
  charLen : ℝ
  nodeId : ℕ

/-- Modelled from the spec: ContactEntity::SetCoordinates is declared in
nimble_contact_entity.h, which is not under src.  Spec sections 3 and 4.3:
a triangle's two real vertices take the coordinates of their nodes and the
fictitious vertex the average of the four face nodes. -/
noncomputable def setCoordinatesTri (coord : ℕ → ℝ) (tri : ContactTriangle) :
    ContactTriangle :=
  { tri with
    v1 := coordTriple coord tri.nodeId1
    v2 := coordTriple coord tri.nodeId2
    v3 := fictitiousNode (coordTriple coord) tri.fictitiousNodeIds }

/-- Modelled from the spec: a NODE contact entity updates its single vertex
from the coordinates of its node. -/
def setCoordinatesNode (coord : ℕ → ℝ) (nd : ContactNodeEntity) : ContactNodeEntity :=
  { nd with v1 := coordTriple coord nd.nodeId }

/-- ContactManager::ApplyDisplacements: update the coord array from
model_coord and the displacement at each node's full-mesh index, then push
the new coordinates into every contact face and contact node entity. -/
noncomputable def ApplyDisplacements (nodeIds : ℕ → ℕ) (modelCoord disp : ℕ → ℝ)
    (faces : List ContactTriangle) (nodes : List ContactNodeEntity) :
    (ℕ → ℝ) × List ContactTriangle × List ContactNodeEntity :=
  (applyDisplacementsCoord nodeIds modelCoord disp,
   faces.map (setCoordinatesTri (applyDisplacementsCoord nodeIds modelCoord disp)),
   nodes.map (setCoordinatesNode (applyDisplacementsCoord nodeIds modelCoord disp)))

/-- The three assignments of one GetForces iteration:
contact_force[3*node_id+c] = force_[3*i+c] for c = 0, 1, 2. -/
def write3 (force cf : ℕ → ℝ) (i nid : ℕ) : ℕ → ℝ :=
  fun k =>
    if k = 3 * nid then force (3 * i)
    else if k = 3 * nid + 1 then force (3 * i + 1)
    else if k = 3 * nid + 2 then force (3 * i + 2)
    else cf k

/-- The GetForces loop over the submodel nodes, carrying the loop index. -/
def getForcesAux (force : ℕ → ℝ) : List ℕ → ℕ → (ℕ → ℝ) → (ℕ → ℝ)
  | [], _, cf => cf
  | nid :: tl, i, cf => getForcesAux force tl (i + 1) (write3 force cf i nid)

/-- ContactManager::GetForces: write each submodel node's force triple into
the global contact_force array at the node's full-mesh index. -/
def GetForces (nodeIds : List ℕ) (force cf : ℕ → ℝ) : ℕ → ℝ :=
  getForcesAux force nodeIds 0 cf

/-! ### Theorems -/

/-- The code-side and spec-side unit normals agree: n[i] * (1/sqrt(n_sq))
is n[i] / |n|. -/
theorem unitNormalCode_eq_spec (t : Tri) : unitNormalCode t = specUnitNormal t := by
  simp [unitNormalCode, specUnitNormal, nSqOf, div_eq_mul_inv]

/-- C1 counterexample.  At the node (1/4, -1/4, 0) against the facet with
vertices (0,0,0), (1,0,0), (0,1,0) and tol = 1/4 the weights are
(1, 1/4, -1/4), so every weight lies in the closed interval [-1/4, 5/4],
yet alpha3 = -tol fails the strict test alpha3 > -tol of the source: the
kernel takes the outside branch and leaves the incoming normal (5,5,5) in
place instead of returning the unit normal (0,0,1). -/
theorem claim_C1_counterexample : ¬ ClaimC1 := by
  intro h
  have ha3 : alpha3Of ⟨1/4, -1/4, 0⟩ ⟨⟨0,0,0⟩, ⟨1,0,0⟩, ⟨0,1,0⟩, 10⟩ = -(1/4) := by
    norm_num [alpha3Of, dot, CrossProduct, uOf, vOf, wOf, triNormal, nSqOf, vsub]
  have ha2 : alpha2Of ⟨1/4, -1/4, 0⟩ ⟨⟨0,0,0⟩, ⟨1,0,0⟩, ⟨0,1,0⟩, 10⟩ = 1/4 := by
    norm_num [alpha2Of, dot, CrossProduct, uOf, vOf, wOf, triNormal, nSqOf, vsub]
  have ha1 : alpha1Of ⟨1/4, -1/4, 0⟩ ⟨⟨0,0,0⟩, ⟨1,0,0⟩, ⟨0,1,0⟩, 10⟩ = 1 := by
    rw [alpha1Of, ha2, ha3]; norm_num
  have hclosed : inRangeClosed ⟨1/4, -1/4, 0⟩ ⟨⟨0,0,0⟩, ⟨1,0,0⟩, ⟨0,1,0⟩, 10⟩ (1/4) := by
    rw [inRangeClosed, ha1, ha2, ha3]; norm_num
  have hnotopen : ¬ inRangeOpen ⟨1/4, -1/4, 0⟩ ⟨⟨0,0,0⟩, ⟨1,0,0⟩, ⟨0,1,0⟩, 10⟩ (1/4) := by
    rw [inRangeOpen, ha1, ha2, ha3]; norm_num
  have hnrm := ((h ⟨1/4, -1/4, 0⟩ ⟨⟨0,0,0⟩, ⟨1,0,0⟩, ⟨0,1,0⟩, 10⟩ 37 0 (1/4)
      ⟨5,5,5⟩ ⟨0,0,0⟩ ⟨0,0,0⟩ ⟨0,0,0⟩).1 hclosed).1
  rw [Projection, if_neg hnotopen] at hnrm
  have hx := congrArg Vec3.x hnrm
  have hnormx : (specUnitNormal ⟨⟨0,0,0⟩, ⟨1,0,0⟩, ⟨0,1,0⟩, 10⟩).x = 0 := by
    norm_num [specUnitNormal, dot, CrossProduct, uOf, vOf, triNormal, vsub]
  rw [hnormx] at hx
  norm_num at hx

/-- C1 (amended): in ContactManager::Projection, when every barycentric
weight lies strictly inside the open interval (-tol, 1+tol) the kernel
returns the outward unit normal n/|n|, the projected point (via
SimpleClosestPointProjectionSingle) and the signed gap
(node - projected point).normal, and reports contact iff gap < 0 and
gap > -characteristic length; when some weight falls outside that open
interval the simple projection reports UNKNOWN and in stays false. -/
theorem claim_C1 (p : Vec3) (t : Tri) (gap0 sgap0 tol : ℝ)
    (normal0 bary0 closest0 snormal0 : Vec3) :
    (inRangeOpen p t tol →
      (Projection p t gap0 normal0 bary0 tol).normal = specUnitNormal t ∧
      (SimpleClosestPointProjectionSingle p t closest0 sgap0 snormal0 tol).closest =
        projPoint p t ∧
      (Projection p t gap0 normal0 bary0 tol).gap =
        dot (vsub p (projPoint p t)) (specUnitNormal t) ∧
      ((Projection p t gap0 normal0 bary0 tol).inContact ↔
        (Projection p t gap0 normal0 bary0 tol).gap < 0 ∧
        (Projection p t gap0 normal0 bary0 tol).gap > -t.charLen)) ∧
    (¬ inRangeOpen p t tol →
      (SimpleClosestPointProjectionSingle p t closest0 sgap0 snormal0 tol).ptype =
        ProjectionType.UNKNOWN ∧
      ¬ (Projection p t gap0 normal0 bary0 tol).inContact) := by
  constructor
  · intro h
    rw [Projection, if_pos h, SimpleClosestPointProjectionSingle, if_pos h]
    refine ⟨unitNormalCode_eq_spec t, rfl, ?_, Iff.rfl⟩
    rw [gapOf, unitNormalCode_eq_spec t]
  · intro h
    rw [Projection, if_neg h, SimpleClosestPointProjectionSingle, if_neg h]
    exact ⟨rfl, not_false⟩

/-- Witness for C1: the node (1/3, 1/3, -1/2) over the facet with vertices
(0,0,0), (1,0,0), (0,1,0) has weights (1/3, 1/3, 1/3), all strictly inside
(-1/100, 1 + 1/100), and the amended theorem yields the unit normal. -/
theorem claim_C1_witness :
    inRangeOpen ⟨1/3, 1/3, -(1/2)⟩ ⟨⟨0,0,0⟩, ⟨1,0,0⟩, ⟨0,1,0⟩, 2⟩ (1/100) ∧
    (Projection ⟨1/3, 1/3, -(1/2)⟩ ⟨⟨0,0,0⟩, ⟨1,0,0⟩, ⟨0,1,0⟩, 2⟩ 0 ⟨0,0,0⟩ ⟨0,0,0⟩
      (1/100)).normal = specUnitNormal ⟨⟨0,0,0⟩, ⟨1,0,0⟩, ⟨0,1,0⟩, 2⟩ := by
  have ha3 : alpha3Of ⟨1/3, 1/3, -(1/2)⟩ ⟨⟨0,0,0⟩, ⟨1,0,0⟩, ⟨0,1,0⟩, 2⟩ = 1/3 := by
    norm_num [alpha3Of, dot, CrossProduct, uOf, vOf, wOf, triNormal, nSqOf, vsub]
  have ha2 : alpha2Of ⟨1/3, 1/3, -(1/2)⟩ ⟨⟨0,0,0⟩, ⟨1,0,0⟩, ⟨0,1,0⟩, 2⟩ = 1/3 := by
    norm_num [alpha2Of, dot, CrossProduct, uOf, vOf, wOf, triNormal, nSqOf, vsub]
  have ha1 : alpha1Of ⟨1/3, 1/3, -(1/2)⟩ ⟨⟨0,0,0⟩, ⟨1,0,0⟩, ⟨0,1,0⟩, 2⟩ = 1/3 := by
    rw [alpha1Of, ha2, ha3]; norm_num
  have hopen : inRangeOpen ⟨1/3, 1/3, -(1/2)⟩ ⟨⟨0,0,0⟩, ⟨1,0,0⟩, ⟨0,1,0⟩, 2⟩ (1/100) := by
    rw [inRangeOpen, ha1, ha2, ha3]; norm_num
  exact ⟨hopen,
    ((claim_C1 ⟨1/3, 1/3, -(1/2)⟩ ⟨⟨0,0,0⟩, ⟨1,0,0⟩, ⟨0,1,0⟩, 2⟩ 0 0 (1/100)
      ⟨0,0,0⟩ ⟨0,0,0⟩ ⟨0,0,0⟩ ⟨0,0,0⟩).1 hopen).1⟩

/-- After the vertex 2 test the stored state decodes to the kept candidate and
caches its squared distance. -/
theorem fbS2_spec (p p1 p2 p3 : Vec3) :
    fbPoint p1 p2 p3 (fbS2 p p1 p2) = fbV2 p p1 p2 ∧
    (fbS2 p p1 p2).1 = distSq (fbV2 p p1 p2) p := by
  rw [fbS2, fbV2]
  by_cases h : distSq p2 p < distSq p1 p
  · simp only [if_pos h]; exact ⟨rfl, trivial⟩
  · simp only [if_neg h]; exact ⟨rfl, trivial⟩

/-- After the vertex 3 test the stored state decodes to the kept candidate and
caches its squared distance. -/
theorem fbS3_spec (p p1 p2 p3 : Vec3) :
    fbPoint p1 p2 p3 (fbS3 p p1 p2 p3) = fbV3 p p1 p2 p3 ∧
    (fbS3 p p1 p2 p3).1 = distSq (fbV3 p p1 p2 p3) p := by
  have h2 := fbS2_spec p p1 p2 p3
  rw [fbS3, fbV3, h2.2]
  by_cases h : distSq p3 p < distSq (fbV2 p p1 p2) p
  · simp only [if_pos h]; exact ⟨rfl, trivial⟩
  · simp only [if_neg h]; exact h2

/-- After the edge 1-2 test the stored state decodes to the kept candidate and
caches its squared distance. -/
theorem fbS4_spec (p p1 p2 p3 : Vec3) :
    fbPoint p1 p2 p3 (fbS4 p p1 p2 p3) = fbV4 p p1 p2 p3 ∧
    (fbS4 p p1 p2 p3).1 = distSq (fbV4 p p1 p2 p3) p := by
  have h3 := fbS3_spec p p1 p2 p3
  rw [fbS4, fbV4]
  simp only [PointEdgeClosestPointFindDistanceSquared]
  rw [h3.2]
  by_cases hr : PointEdgeClosestPointFindT p1 p2 p > 0 ∧ PointEdgeClosestPointFindT p1 p2 p < 1
  · simp only [if_pos hr]
    by_cases h : distSq (edgePoint p1 p2 (PointEdgeClosestPointFindT p1 p2 p)) p
        < distSq (fbV3 p p1 p2 p3) p
    · simp only [if_pos h]; exact ⟨rfl, trivial⟩
    · simp only [if_neg h]; exact h3
  · simp only [if_neg hr]; exact h3

/-- After the edge 2-3 test the stored state decodes to the kept candidate and
caches its squared distance. -/
theorem fbS5_spec (p p1 p2 p3 : Vec3) :
    fbPoint p1 p2 p3 (fbS5 p p1 p2 p3) = fbV5 p p1 p2 p3 ∧
    (fbS5 p p1 p2 p3).1 = distSq (fbV5 p p1 p2 p3) p := by
  have h4 := fbS4_spec p p1 p2 p3
  rw [fbS5, fbV5]
  simp only [PointEdgeClosestPointFindDistanceSquared]
  rw [h4.2]
  by_cases hr : PointEdgeClosestPointFindT p2 p3 p > 0 ∧ PointEdgeClosestPointFindT p2 p3 p < 1
  · simp only [if_pos hr]
    by_cases h : distSq (edgePoint p2 p3 (PointEdgeClosestPointFindT p2 p3 p)) p
        < distSq (fbV4 p p1 p2 p3) p
    · simp only [if_pos h]; exact ⟨rfl, trivial⟩
    · simp only [if_neg h]; exact h4
  · simp only [if_neg hr]; exact h4

/-- After the edge 3-1 test the stored state decodes to the kept candidate and
caches its squared distance. -/
theorem fbS6_spec (p p1 p2 p3 : Vec3) :
    fbPoint p1 p2 p3 (fbS6 p p1 p2 p3) = fbV6 p p1 p2 p3 ∧
    (fbS6 p p1 p2 p3).1 = distSq (fbV6 p p1 p2 p3) p := by
  have h5 := fbS5_spec p p1 p2 p3
  rw [fbS6, fbV6]
  simp only [PointEdgeClosestPointFindDistanceSquared]
  rw [h5.2]
  by_cases hr : PointEdgeClosestPointFindT p3 p1 p > 0 ∧ PointEdgeClosestPointFindT p3 p1 p < 1
  · simp only [if_pos hr]
    by_cases h : distSq (edgePoint p3 p1 (PointEdgeClosestPointFindT p3 p1 p)) p
        < distSq (fbV5 p p1 p2 p3) p
    · simp only [if_pos h]; exact ⟨rfl, trivial⟩
    · simp only [if_neg h]; exact h5
  · simp only [if_neg hr]; exact h5

/-- The unrolled candidate cascade of the source equals the first-argmin fold
over the candidate list. -/
theorem cppFallback_eq_nearestFold (p p1 p2 p3 : Vec3) :
    cppFallback p p1 p2 p3 = nearestFold p p1 (candList p p1 p2 p3) := by
  rw [cppFallback, (fbS6_spec p p1 p2 p3).1, nearestFold, candList]
  rcases Classical.em (PointEdgeClosestPointFindT p1 p2 p > 0 ∧
      PointEdgeClosestPointFindT p1 p2 p < 1) with h4 | h4 <;>
    rcases Classical.em (PointEdgeClosestPointFindT p2 p3 p > 0 ∧
        PointEdgeClosestPointFindT p2 p3 p < 1) with h5 | h5 <;>
      rcases Classical.em (PointEdgeClosestPointFindT p3 p1 p > 0 ∧
          PointEdgeClosestPointFindT p3 p1 p < 1) with h6 | h6 <;>
        simp only [fbV6, fbV5, fbV4, fbV3, fbV2, h4, h5, h6, true_and, and_true,
          if_true, if_false, List.cons_append, List.nil_append, List.append_nil,
          List.foldl_cons, List.foldl_nil, List.foldl_append]

/-- A first-argmin fold returns an element of the scanned list that realizes
the minimum key, and every element strictly before it has a strictly larger
key (ties keep the earlier candidate). -/
theorem nearestFold_spec (p b : Vec3) (l : List Vec3) :
    ∃ l1 x l2, b :: l = l1 ++ x :: l2 ∧ nearestFold p b l = x ∧
      (∀ y ∈ b :: l, distSq x p ≤ distSq y p) ∧
      (∀ y ∈ l1, distSq x p < distSq y p) := by
  induction l generalizing b with
  | nil =>
    exact ⟨[], b, [], rfl, rfl, by simp, by simp⟩
  | cons c tl ih =>
    by_cases h : distSq c p < distSq b p
    · obtain ⟨l1, x, l2, hdec, hres, hmin, hstrict⟩ := ih c
      refine ⟨b :: l1, x, l2, ?_, ?_, ?_, ?_⟩
      · rw [List.cons_append, ← hdec]
      · rw [nearestFold, List.foldl_cons, if_pos h]; exact hres
      · intro y hy
        rcases List.mem_cons.mp hy with hyb | hyc
        · subst hyb
          exact le_of_lt (lt_of_le_of_lt (hmin c (List.mem_cons_self c tl)) h)
        · exact hmin y hyc
      · intro y hy
        rcases List.mem_cons.mp hy with hyb | hyl
        · subst hyb
          exact lt_of_le_of_lt (hmin c (List.mem_cons_self c tl)) h
        · exact hstrict y hyl
    · obtain ⟨l1, x, l2, hdec, hres, hmin, hstrict⟩ := ih b
      have hres2 : nearestFold p b (c :: tl) = x := by
        rw [nearestFold, List.foldl_cons, if_neg h]; exact hres
      have hbc : distSq b p ≤ distSq c p := not_lt.mp h
      cases l1 with
      | nil =>
        have hxb : x = b := by
          have h0 := hdec; simp at h0; exact h0.1.symm
        refine ⟨[], x, c :: tl, by simp [hxb], ?_, ?_, by simp⟩
        · exact hres2
        · intro y hy
          rcases List.mem_cons.mp hy with hyb | hyc
          · subst hyb; rw [hxb]
          · rcases List.mem_cons.mp hyc with hyc2 | hytl
            · subst hyc2; rw [hxb]; exact hbc
            · exact hmin y (List.mem_cons_of_mem b hytl)
      | cons hd tl1 =>
        have hhd : hd = b := by
          have := hdec; rw [List.cons_append] at this; exact (List.cons.injEq _ _ _ _ ▸ this).1.symm
        have htl : tl = tl1 ++ x :: l2 := by
          have := hdec; rw [List.cons_append] at this
          exact (List.cons.injEq _ _ _ _ ▸ this).2
        have hxb : distSq x p < distSq b p := hstrict b (hhd ▸ List.mem_cons_self hd tl1)
        refine ⟨b :: c :: tl1, x, l2, ?_, hres2, ?_, ?_⟩
        · rw [htl]; simp
        · intro y hy
          rcases List.mem_cons.mp hy with hyb | hyc
          · subst hyb; exact le_of_lt hxb
          · rcases List.mem_cons.mp hyc with hyc2 | hytl
            · subst hyc2; exact le_of_lt (lt_of_lt_of_le hxb hbc)
            · exact hmin y (List.mem_cons_of_mem b hytl)
        · intro y hy
          rcases List.mem_cons.mp hy with hyb | hyc
          · subst hyb; exact hxb
          · rcases List.mem_cons.mp hyc with hyc2 | hytl1
            · subst hyc2; exact lt_of_lt_of_le hxb hbc
            · exact hstrict y (hhd ▸ List.mem_cons_of_mem hd hytl1)

/-- C2 counterexample.  At the node (1/4, 1/2, 0) against the facet with
vertices (0,0,0), (1,0,0), (0,1,0) and tol = 1/4 the weights are
(1/4, 1/4, 1/2).  alpha = 1/4 = tol is not strictly inside (tol, 1-tol), so
the claim requires NODE_OR_EDGE, but the source only tests the near-zero
window (-tol, tol), which alpha = tol fails, and classifies FACE. -/
theorem claim_C2_counterexample : ¬ ClaimC2 := by
  intro h
  have ha3 : alpha3Of ⟨1/4, 1/2, 0⟩ ⟨⟨0,0,0⟩, ⟨1,0,0⟩, ⟨0,1,0⟩, 10⟩ = 1/2 := by
    norm_num [alpha3Of, dot, CrossProduct, uOf, vOf, wOf, triNormal, nSqOf, vsub]
  have ha2 : alpha2Of ⟨1/4, 1/2, 0⟩ ⟨⟨0,0,0⟩, ⟨1,0,0⟩, ⟨0,1,0⟩, 10⟩ = 1/4 := by
    norm_num [alpha2Of, dot, CrossProduct, uOf, vOf, wOf, triNormal, nSqOf, vsub]
  have ha1 : alpha1Of ⟨1/4, 1/2, 0⟩ ⟨⟨0,0,0⟩, ⟨1,0,0⟩, ⟨0,1,0⟩, 10⟩ = 1/4 := by
    rw [alpha1Of, ha2, ha3]; norm_num
  have hclosed : inRangeClosed ⟨1/4, 1/2, 0⟩ ⟨⟨0,0,0⟩, ⟨1,0,0⟩, ⟨0,1,0⟩, 10⟩ (1/4) := by
    rw [inRangeClosed, ha1, ha2, ha3]; norm_num
  have hopen : inRangeOpen ⟨1/4, 1/2, 0⟩ ⟨⟨0,0,0⟩, ⟨1,0,0⟩, ⟨0,1,0⟩, 10⟩ (1/4) := by
    rw [inRangeOpen, ha1, ha2, ha3]; norm_num
  have hns : ¬ strictlyInsideW ⟨1/4, 1/2, 0⟩ ⟨⟨0,0,0⟩, ⟨1,0,0⟩, ⟨0,1,0⟩, 10⟩ (1/4) := by
    rw [strictlyInsideW, ha1]; norm_num
  have hnz : ¬ (isZeroW (alpha1Of ⟨1/4, 1/2, 0⟩ ⟨⟨0,0,0⟩, ⟨1,0,0⟩, ⟨0,1,0⟩, 10⟩) (1/4) ∨
      isZeroW (alpha2Of ⟨1/4, 1/2, 0⟩ ⟨⟨0,0,0⟩, ⟨1,0,0⟩, ⟨0,1,0⟩, 10⟩) (1/4) ∨
      isZeroW (alpha3Of ⟨1/4, 1/2, 0⟩ ⟨⟨0,0,0⟩, ⟨1,0,0⟩, ⟨0,1,0⟩, 10⟩) (1/4)) := by
    rw [isZeroW, isZeroW, isZeroW, ha1, ha2, ha3]; norm_num
  have hcl := ((h ⟨1/4, 1/2, 0⟩ ⟨⟨0,0,0⟩, ⟨1,0,0⟩, ⟨0,1,0⟩, 10⟩ (1/4)).1 hclosed).2.2 hns
  rw [ClosestPointProjectionSingle, if_pos hopen] at hcl
  have hface : (ClosestPointProjectionSingle ⟨1/4, 1/2, 0⟩
      ⟨⟨0,0,0⟩, ⟨1,0,0⟩, ⟨0,1,0⟩, 10⟩ (1/4)).ptype = ProjectionType.FACE := by
    rw [ClosestPointProjectionSingle, if_pos hopen]
    exact if_neg hnz
  rw [ClosestPointProjectionSingle, if_pos hopen] at hface
  rw [hface] at hcl
  exact ProjectionType.noConfusion hcl

/-- C2 (amended): with every barycentric weight strictly inside the open
interval (-tol, 1+tol) the closest point is the barycentric combination,
classified FACE when no weight lies in the near-zero window (-tol, tol) and
NODE_OR_EDGE otherwise; with some weight outside the open range, the result
is the first of the six candidates (vertex 1, vertex 2, vertex 3, then each
edge foot with parameter strictly in (0,1)) attaining the minimum squared
distance, classified NODE_OR_EDGE. -/
theorem claim_C2 (p : Vec3) (t : Tri) (tol : ℝ) :
    (inRangeOpen p t tol →
      (ClosestPointProjectionSingle p t tol).closest = projPoint p t ∧
      (¬ (isZeroW (alpha1Of p t) tol ∨ isZeroW (alpha2Of p t) tol ∨
          isZeroW (alpha3Of p t) tol) →
        (ClosestPointProjectionSingle p t tol).ptype = ProjectionType.FACE) ∧
      ((isZeroW (alpha1Of p t) tol ∨ isZeroW (alpha2Of p t) tol ∨
          isZeroW (alpha3Of p t) tol) →
        (ClosestPointProjectionSingle p t tol).ptype = ProjectionType.NODE_OR_EDGE)) ∧
    (¬ inRangeOpen p t tol →
      (ClosestPointProjectionSingle p t tol).ptype = ProjectionType.NODE_OR_EDGE ∧
      ∃ l1 x l2, t.p1 :: candList p t.p1 t.p2 t.p3 = l1 ++ x :: l2 ∧
        (ClosestPointProjectionSingle p t tol).closest = x ∧
        (∀ y ∈ t.p1 :: candList p t.p1 t.p2 t.p3, distSq x p ≤ distSq y p) ∧
        (∀ y ∈ l1, distSq x p < distSq y p)) := by
  constructor
  · intro h
    rw [ClosestPointProjectionSingle, if_pos h]
    exact ⟨rfl, fun hz => if_neg hz, fun hz => if_pos hz⟩
  · intro h
    rw [ClosestPointProjectionSingle, if_neg h]
    refine ⟨rfl, ?_⟩
    obtain ⟨l1, x, l2, hdec, hres, hmin, hstrict⟩ :=
      nearestFold_spec p t.p1 (candList p t.p1 t.p2 t.p3)
    exact ⟨l1, x, l2, hdec,
      (cppFallback_eq_nearestFold p t.p1 t.p2 t.p3).trans hres, hmin, hstrict⟩

/-- Witness for C2: the node (1/3, 1/3, 0) over the facet with vertices
(0,0,0), (1,0,0), (0,1,0) has weights (1/3, 1/3, 1/3); with tol = 1/100 the
amended theorem classifies it FACE with the barycentric closest point. -/
theorem claim_C2_witness :
    inRangeOpen ⟨1/3, 1/3, 0⟩ ⟨⟨0,0,0⟩, ⟨1,0,0⟩, ⟨0,1,0⟩, 2⟩ (1/100) ∧
    (ClosestPointProjectionSingle ⟨1/3, 1/3, 0⟩ ⟨⟨0,0,0⟩, ⟨1,0,0⟩, ⟨0,1,0⟩, 2⟩
      (1/100)).ptype = ProjectionType.FACE := by
  have ha3 : alpha3Of ⟨1/3, 1/3, 0⟩ ⟨⟨0,0,0⟩, ⟨1,0,0⟩, ⟨0,1,0⟩, 2⟩ = 1/3 := by
    norm_num [alpha3Of, dot, CrossProduct, uOf, vOf, wOf, triNormal, nSqOf, vsub]
  have ha2 : alpha2Of ⟨1/3, 1/3, 0⟩ ⟨⟨0,0,0⟩, ⟨1,0,0⟩, ⟨0,1,0⟩, 2⟩ = 1/3 := by
    norm_num [alpha2Of, dot, CrossProduct, uOf, vOf, wOf, triNormal, nSqOf, vsub]
  have ha1 : alpha1Of ⟨1/3, 1/3, 0⟩ ⟨⟨0,0,0⟩, ⟨1,0,0⟩, ⟨0,1,0⟩, 2⟩ = 1/3 := by
    rw [alpha1Of, ha2, ha3]; norm_num
  have hopen : inRangeOpen ⟨1/3, 1/3, 0⟩ ⟨⟨0,0,0⟩, ⟨1,0,0⟩, ⟨0,1,0⟩, 2⟩ (1/100) := by
    rw [inRangeOpen, ha1, ha2, ha3]; norm_num
  have hnz : ¬ (isZeroW (alpha1Of ⟨1/3, 1/3, 0⟩ ⟨⟨0,0,0⟩, ⟨1,0,0⟩, ⟨0,1,0⟩, 2⟩) (1/100) ∨
      isZeroW (alpha2Of ⟨1/3, 1/3, 0⟩ ⟨⟨0,0,0⟩, ⟨1,0,0⟩, ⟨0,1,0⟩, 2⟩) (1/100) ∨
      isZeroW (alpha3Of ⟨1/3, 1/3, 0⟩ ⟨⟨0,0,0⟩, ⟨1,0,0⟩, ⟨0,1,0⟩, 2⟩) (1/100)) := by
    rw [isZeroW, isZeroW, isZeroW, ha1, ha2, ha3]; norm_num
  exact ⟨hopen,
    ((claim_C2 ⟨1/3, 1/3, 0⟩ ⟨⟨0,0,0⟩, ⟨1,0,0⟩, ⟨0,1,0⟩, 2⟩ (1/100)).1 hopen).2.1 hnz⟩

/-- Lookup after one insertion: the inserted key gains a count (starting at 1
and keeping the first record), other keys are untouched. -/
theorem lookupKey_bumpFace (m : List (List ℕ × ℕ × FaceRec)) (f : FaceRec) (k : List ℕ) :
    lookupKey (bumpFace m f) k =
      if f.key = k then
        match lookupKey m k with
        | none => some (1, f)
        | some (c, r) => some (c + 1, r)
      else lookupKey m k := by
  induction m with
  | nil =>
    by_cases h : f.key = k <;> simp [bumpFace, lookupKey, h]
  | cons hd tl ih =>
    obtain ⟨k2, c, r⟩ := hd
    rw [bumpFace]
    by_cases h1 : k2 = f.key
    · rw [if_pos h1]
      by_cases h2 : k2 = k
      · have hfk : f.key = k := h1 ▸ h2
        rw [lookupKey, if_pos h2, if_pos hfk, lookupKey, if_pos h2]
      · have hfk : ¬ f.key = k := fun hc => h2 (h1.trans hc)
        rw [lookupKey, if_neg h2, if_neg hfk, lookupKey, if_neg h2]
    · rw [if_neg h1]
      by_cases h2 : k2 = k
      · have hfk : ¬ f.key = k := fun hc => h1 (h2.trans hc.symm ▸ rfl)
        rw [lookupKey, if_pos h2, if_neg hfk, lookupKey, if_pos h2]
      · rw [lookupKey, if_neg h2, ih, lookupKey, if_neg h2]

/-- Lookup after folding a list of insertions over a map: the count grows by
the number of occurrences in the folded list, an absent key appears with its
first occurrence as record. -/
theorem lookupKey_foldl (fs : List FaceRec) (m : List (List ℕ × ℕ × FaceRec)) (k : List ℕ) :
    lookupKey (fs.foldl bumpFace m) k =
      match lookupKey m k with
      | none =>
        match firstKey fs k with
        | none => none
        | some r => some (occKey fs k, r)
      | some (c, r) => some (c + occKey fs k, r) := by
  induction fs generalizing m with
  | nil =>
    cases h : lookupKey m k <;> simp [h, occKey, firstKey]
  | cons f tl ih =>
    rw [List.foldl_cons, ih, lookupKey_bumpFace]
    by_cases hk : f.key = k
    · rw [if_pos hk]
      have hocc : occKey (f :: tl) k = occKey tl k + 1 := by
        simp [occKey, List.countP_cons, hk]
      have hfirst : firstKey (f :: tl) k = some f := by
        simp [firstKey, List.find?_cons_of_pos, hk]
      rw [hocc, hfirst]
      cases h : lookupKey m k with
      | none => simp [Nat.add_comm]
      | some pr => obtain ⟨c, r⟩ := pr; simp; omega
    · rw [if_neg hk]
      have hocc : occKey (f :: tl) k = occKey tl k := by
        simp [occKey, List.countP_cons, hk]
      have hfirst : firstKey (f :: tl) k = firstKey tl k := by
        simp [firstKey, List.find?_cons_of_neg, hk]
      rw [hocc, hfirst]

/-- Lookup in the finished face map: the first generated face with the key,
together with the total occurrence count. -/
theorem lookupKey_facesMap (blocks : List HexBlock) (k : List ℕ) :
    lookupKey (facesMap blocks) k =
      match firstKey (allFaces blocks) k with
      | none => none
      | some r => some (occKey (allFaces blocks) k, r) := by
  rw [facesMap, lookupKey_foldl]
  rfl

/-- A successful lookup comes from a map entry. -/
theorem mem_of_lookupKey (m : List (List ℕ × ℕ × FaceRec)) (k : List ℕ) (c : ℕ)
    (r : FaceRec) (h : lookupKey m k = some (c, r)) : (k, c, r) ∈ m := by
  induction m with
  | nil => simp [lookupKey] at h
  | cons hd tl ih =>
    obtain ⟨k2, c2, r2⟩ := hd
    rw [lookupKey] at h
    by_cases h2 : k2 = k
    · rw [if_pos h2] at h
      have h3 := h
      simp at h3
      exact List.mem_cons.mpr (Or.inl (by rw [h2, h3.1, h3.2]))
    · rw [if_neg h2] at h
      exact List.mem_cons_of_mem _ (ih h)

/-- With pairwise-distinct keys, every map entry is found by lookup. -/
theorem lookupKey_of_mem (m : List (List ℕ × ℕ × FaceRec))
    (hnd : (m.map (fun e => e.1)).Nodup) (k : List ℕ) (c : ℕ) (r : FaceRec)
    (hm : (k, c, r) ∈ m) : lookupKey m k = some (c, r) := by
  induction m with
  | nil => simp at hm
  | cons hd tl ih =>
    obtain ⟨k2, c2, r2⟩ := hd
    rcases List.mem_cons.mp hm with h | h
    · obtain ⟨h1, h2, h3⟩ : k = k2 ∧ c = c2 ∧ r = r2 := by
        have h4 := h; simp at h4; exact h4
      rw [lookupKey, if_pos h1.symm, h2, h3]
    · have hk2 : k2 ≠ k := by
        intro hc
        have hin : k ∈ tl.map (fun e => e.1) :=
          List.mem_map.mpr ⟨(k, c, r), h, rfl⟩
        rw [List.map_cons] at hnd
        exact (List.nodup_cons.mp hnd).1 (hc ▸ hin)
      rw [lookupKey, if_neg hk2]
      exact ih (List.nodup_cons.mp (List.map_cons _ _ _ ▸ hnd)).2 h

/-- The keys after one insertion: the old keys, plus the inserted key when it
was absent. -/
theorem mem_keys_bumpFace (m : List (List ℕ × ℕ × FaceRec)) (f : FaceRec) (x : List ℕ) :
    x ∈ (bumpFace m f).map (fun e => e.1) ↔
      x ∈ m.map (fun e => e.1) ∨ x = f.key := by
  induction m with
  | nil => simp [bumpFace]
  | cons hd tl ih =>
    obtain ⟨k, c, r⟩ := hd
    rw [bumpFace]
    by_cases h : k = f.key
    · rw [if_pos h]
      simp only [List.map_cons, List.mem_cons]
      constructor
      · intro hx; exact Or.inl hx
      · rintro (hx | hx)
        · exact hx
        · exact Or.inl (hx.trans h.symm)
    · rw [if_neg h]
      simp only [List.map_cons, List.mem_cons]
      rw [ih]
      tauto

/-- Insertions preserve distinctness of keys. -/
theorem nodup_keys_bumpFace (m : List (List ℕ × ℕ × FaceRec)) (f : FaceRec)
    (h : (m.map (fun e => e.1)).Nodup) : ((bumpFace m f).map (fun e => e.1)).Nodup := by
  induction m with
  | nil => simp [bumpFace]
  | cons hd tl ih =>
    obtain ⟨k, c, r⟩ := hd
    rw [List.map_cons, List.nodup_cons] at h
    rw [bumpFace]
    by_cases hk : k = f.key
    · rw [if_pos hk, List.map_cons, List.nodup_cons]
      exact h
    · rw [if_neg hk, List.map_cons, List.nodup_cons]
      refine ⟨?_, ih h.2⟩
      intro hc
      rcases (mem_keys_bumpFace tl f k).mp hc with h2 | h2
      · exact h.1 h2
      · exact hk h2

/-- The finished face map has pairwise-distinct keys. -/
theorem nodup_keys_facesMap (blocks : List HexBlock) :
    ((facesMap blocks).map (fun e => e.1)).Nodup := by
  rw [facesMap]
  have main : ∀ (fs : List FaceRec) (m : List (List ℕ × ℕ × FaceRec)),
      (m.map (fun e => e.1)).Nodup → ((fs.foldl bumpFace m).map (fun e => e.1)).Nodup := by
    intro fs
    induction fs with
    | nil => intro m h; exact h
    | cons f tl ih =>
      intro m h
      rw [List.foldl_cons]
      exact ih _ (nodup_keys_bumpFace m f h)
  exact main _ [] (by simp)

/-- The emission loop aborts exactly when some map entry has a count other
than 1 or 2. -/
theorem emitFaces_eq_none_iff (offset : ℕ) (m : List (List ℕ × ℕ × FaceRec)) :
    emitFaces offset m = none ↔ ∃ e ∈ m, e.2.1 ≠ 1 ∧ e.2.1 ≠ 2 := by
  induction m with
  | nil => simp [emitFaces]
  | cons hd tl ih =>
    obtain ⟨k, c, r⟩ := hd
    constructor
    · intro h
      rw [emitFaces] at h
      by_cases h1 : c = 1
      · rw [if_pos h1] at h
        cases he : emitFaces offset tl with
        | some pr =>
          obtain ⟨fs, ids⟩ := pr
          rw [he] at h
          simp at h
        | none =>
          obtain ⟨e, hmem, hne⟩ := ih.mp he
          exact ⟨e, List.mem_cons_of_mem _ hmem, hne⟩
      · rw [if_neg h1] at h
        by_cases h2 : c = 2
        · rw [if_pos h2] at h
          obtain ⟨e, hmem, hne⟩ := ih.mp h
          exact ⟨e, List.mem_cons_of_mem _ hmem, hne⟩
        · exact ⟨(k, c, r), List.mem_cons_self _ _, h1, h2⟩
    · rintro ⟨e, hmem, hne1, hne2⟩
      rw [emitFaces]
      rcases List.mem_cons.mp hmem with he | he
      · subst he
        rw [if_neg hne1, if_neg hne2]
      · have htl : emitFaces offset tl = none := ih.mpr ⟨e, he, hne1, hne2⟩
        by_cases h1 : c = 1
        · rw [if_pos h1, htl]
        · rw [if_neg h1]
          by_cases h2 : c = 2
          · rw [if_pos h2]; exact htl
          · rw [if_neg h2]

/-- On success, the emitted face list and entity-id list have equal length. -/
theorem emitFaces_lengths (offset : ℕ) (m : List (List ℕ × ℕ × FaceRec))
    (fs : List (List ℕ)) (ids : List ℕ) (h : emitFaces offset m = some (fs, ids)) :
    fs.length = ids.length := by
  induction m generalizing fs ids with
  | nil =>
    rw [emitFaces] at h
    cases h
    rfl
  | cons hd tl ih =>
    obtain ⟨k, c, r⟩ := hd
    rw [emitFaces] at h
    by_cases h1 : c = 1
    · rw [if_pos h1] at h
      cases he : emitFaces offset tl with
      | none => rw [he] at h; simp at h
      | some pr =>
        obtain ⟨fs0, ids0⟩ := pr
        rw [he] at h
        cases h
        simp [ih fs0 ids0 he]
    · rw [if_neg h1] at h
      by_cases h2 : c = 2
      · rw [if_pos h2] at h
        exact ih fs ids h
      · rw [if_neg h2] at h
        simp at h

/-- On success, a (face, entity id) pair is emitted exactly for the
count-one map entries, with the stored unsorted node order and the packed
entity id of the stored record. -/
theorem emitFaces_mem_zip (offset : ℕ) (m : List (List ℕ × ℕ × FaceRec))
    (fs : List (List ℕ)) (ids : List ℕ) (h : emitFaces offset m = some (fs, ids))
    (nodes : List ℕ) (id : ℕ) :
    (nodes, id) ∈ fs.zip ids ↔
      ∃ k r, (k, (1 : ℕ), r) ∈ m ∧ nodes = r.nodes ∧ id = skinEntityId r offset := by
  induction m generalizing fs ids with
  | nil =>
    rw [emitFaces] at h
    cases h
    simp
  | cons hd tl ih =>
    obtain ⟨k2, c, r2⟩ := hd
    rw [emitFaces] at h
    by_cases h1 : c = 1
    · subst h1
      rw [if_pos rfl] at h
      cases he : emitFaces offset tl with
      | none => rw [he] at h; simp at h
      | some pr =>
        obtain ⟨fs0, ids0⟩ := pr
        rw [he] at h
        cases h
        rw [List.zip_cons_cons]
        constructor
        · intro hm
          rcases List.mem_cons.mp hm with hhd | htl
          · obtain ⟨hn, hi⟩ : nodes = r2.nodes ∧ id = skinEntityId r2 offset := by
              have h0 := hhd; simp at h0; exact h0
            exact ⟨k2, r2, List.mem_cons_self _ _, hn, hi⟩
          · obtain ⟨k3, r3, hmem, hn, hi⟩ := (ih fs0 ids0 he).mp htl
            exact ⟨k3, r3, List.mem_cons_of_mem _ hmem, hn, hi⟩
        · rintro ⟨k3, r3, hmem, hn, hi⟩
          rcases List.mem_cons.mp hmem with hh | ht
          · obtain ⟨hk, hr⟩ : k3 = k2 ∧ r3 = r2 := by
              have h0 := hh; simp at h0; exact h0
            subst hr
            exact List.mem_cons.mpr (Or.inl (by rw [hn, hi]))
          · exact List.mem_cons_of_mem _ ((ih fs0 ids0 he).mpr ⟨k3, r3, ht, hn, hi⟩)
    · rw [if_neg h1] at h
      by_cases h2 : c = 2
      · rw [if_pos h2] at h
        rw [ih fs ids h]
        constructor
        · rintro ⟨k3, r3, hmem, hn, hi⟩
          exact ⟨k3, r3, List.mem_cons_of_mem _ hmem, hn, hi⟩
        · rintro ⟨k3, r3, hmem, hn, hi⟩
          rcases List.mem_cons.mp hmem with hh | ht
          · obtain ⟨hk, hc, hr⟩ : k3 = k2 ∧ (1 : ℕ) = c ∧ r3 = r2 := by
              have h0 := hh; simp at h0; exact h0
            exact absurd (hc.trans h2) (by norm_num)
          · exact ⟨k3, r3, ht, hn, hi⟩
      · rw [if_neg h2] at h
        simp at h

/-- On success, a face is emitted exactly for the count-one map entries,
with the stored unsorted node order. -/
theorem emitFaces_mem_faces (offset : ℕ) (m : List (List ℕ × ℕ × FaceRec))
    (fs : List (List ℕ)) (ids : List ℕ) (h : emitFaces offset m = some (fs, ids))
    (nodes : List ℕ) :
    nodes ∈ fs ↔ ∃ k r, (k, (1 : ℕ), r) ∈ m ∧ nodes = r.nodes := by
  induction m generalizing fs ids with
  | nil =>
    rw [emitFaces] at h
    cases h
    simp
  | cons hd tl ih =>
    obtain ⟨k2, c, r2⟩ := hd
    rw [emitFaces] at h
    by_cases h1 : c = 1
    · subst h1
      rw [if_pos rfl] at h
      cases he : emitFaces offset tl with
      | none => rw [he] at h; simp at h
      | some pr =>
        obtain ⟨fs0, ids0⟩ := pr
        rw [he] at h
        cases h
        constructor
        · intro hm
          rcases List.mem_cons.mp hm with hhd | htl
          · exact ⟨k2, r2, List.mem_cons_self _ _, hhd⟩
          · obtain ⟨k3, r3, hmem, hn⟩ := (ih fs0 ids0 he).mp htl
            exact ⟨k3, r3, List.mem_cons_of_mem _ hmem, hn⟩
        · rintro ⟨k3, r3, hmem, hn⟩
          rcases List.mem_cons.mp hmem with hh | ht
          · obtain ⟨hk, hr⟩ : k3 = k2 ∧ r3 = r2 := by
              have h0 := hh; simp at h0; exact h0
            subst hr
            exact List.mem_cons.mpr (Or.inl hn)
          · exact List.mem_cons_of_mem _ ((ih fs0 ids0 he).mpr ⟨k3, r3, ht, hn⟩)
    · rw [if_neg h1] at h
      by_cases h2 : c = 2
      · rw [if_pos h2] at h
        rw [ih fs ids h]
        constructor
        · rintro ⟨k3, r3, hmem, hn⟩
          exact ⟨k3, r3, List.mem_cons_of_mem _ hmem, hn⟩
        · rintro ⟨k3, r3, hmem, hn⟩
          rcases List.mem_cons.mp hmem with hh | ht
          · obtain ⟨hk, hc, hr⟩ : k3 = k2 ∧ (1 : ℕ) = c ∧ r3 = r2 := by
              have h0 := hh; simp at h0; exact h0
            exact absurd (hc.trans h2) (by norm_num)
          · exact ⟨k3, r3, ht, hn⟩
      · rw [if_neg h2] at h
        simp at h

/-- A map entry of the finished face map is exactly a key's first generated
face together with the key's total occurrence count. -/
theorem mem_facesMap_iff (blocks : List HexBlock) (k : List ℕ) (c : ℕ) (r : FaceRec) :
    (k, c, r) ∈ facesMap blocks ↔
      firstKey (allFaces blocks) k = some r ∧ c = occKey (allFaces blocks) k := by
  constructor
  · intro h
    have hl := lookupKey_of_mem _ (nodup_keys_facesMap blocks) _ _ _ h
    rw [lookupKey_facesMap] at hl
    cases hf : firstKey (allFaces blocks) k with
    | none => rw [hf] at hl; simp at hl
    | some r0 =>
      rw [hf] at hl
      have h0 := hl
      simp at h0
      exact ⟨by rw [h0.2], h0.1.symm⟩
  · rintro ⟨hf, hc⟩
    apply mem_of_lookupKey
    rw [lookupKey_facesMap, hf, hc]

/-- The first face found for a key is a generated face carrying the key. -/
theorem firstKey_mem (fs : List FaceRec) (k : List ℕ) (r : FaceRec)
    (h : firstKey fs k = some r) : r ∈ fs ∧ r.key = k := by
  refine ⟨List.mem_of_find?_eq_some h, ?_⟩
  have h2 := List.find?_some h
  simpa using h2

/-- In a list where exactly one element satisfies the predicate, find?
returns any satisfying member. -/
theorem find?_eq_of_countP_one {α : Type} (p : α → Bool) (l : List α)
    (h1 : l.countP p = 1) (a : α) (ha : a ∈ l) (hpa : p a = true) :
    l.find? p = some a := by
  induction l with
  | nil => cases ha
  | cons hd tl ih =>
    by_cases hp : p hd = true
    · rw [List.find?_cons_of_pos _ hp]
      rw [List.countP_cons, hp] at h1
      simp at h1
      rcases List.mem_cons.mp ha with h | h
      · rw [h]
      · exact absurd hpa (by simp [h1 a h])
    · rw [List.find?_cons_of_neg _ (by simpa using hp)]
      rw [List.countP_cons] at h1
      have hp0 : (if p hd then 1 else 0) = 0 := by simp [hp]
      rw [hp0] at h1
      rcases List.mem_cons.mp ha with h | h
      · exact absurd (h ▸ hpa) hp
      · exact ih (by omega) h

/-- C3: for every requested block set, SkinBlocks emits exactly the faces
whose sort-invariant key (the four node ids sorted ascending) is generated
exactly once over all elements of all requested blocks, each with its
original unsorted node order; keys generated exactly twice are interior and
omitted; any other occurrence count aborts (result none). -/
theorem claim_C3 (blocks : List HexBlock) (offset : ℕ) :
    (∀ r ∈ allFaces blocks, r.key = sortKey r.nodes) ∧
    (SkinBlocks blocks offset = none ↔
      ∃ f ∈ allFaces blocks, occKey (allFaces blocks) f.key ≠ 1 ∧
        occKey (allFaces blocks) f.key ≠ 2) ∧
    (∀ fs ids, SkinBlocks blocks offset = some (fs, ids) →
      ∀ nodes, nodes ∈ fs ↔
        ∃ r ∈ allFaces blocks, occKey (allFaces blocks) r.key = 1 ∧ nodes = r.nodes) := by
  refine ⟨?_, ?_, ?_⟩
  · intro r hr
    rw [allFaces, List.mem_flatMap] at hr
    obtain ⟨e, he, hf⟩ := hr
    rw [hexFaces] at hf
    simp only [List.mem_cons, List.not_mem_nil, or_false] at hf
    rcases hf with h|h|h|h|h|h <;> subst h <;> rfl
  · rw [SkinBlocks, emitFaces_eq_none_iff]
    constructor
    · rintro ⟨e, hmem, hne1, hne2⟩
      obtain ⟨k, c, r⟩ := e
      rw [mem_facesMap_iff] at hmem
      obtain ⟨hf, hc⟩ := hmem
      obtain ⟨hrmem, hrkey⟩ := firstKey_mem _ _ _ hf
      refine ⟨r, hrmem, ?_, ?_⟩
      · rw [hrkey, ← hc]; exact hne1
      · rw [hrkey, ← hc]; exact hne2
    · rintro ⟨f, hmem, hne1, hne2⟩
      cases hf : firstKey (allFaces blocks) f.key with
      | none =>
        exfalso
        rw [firstKey] at hf
        have h2 := List.find?_eq_none.mp hf f hmem
        simp at h2
      | some r0 =>
        refine ⟨(f.key, occKey (allFaces blocks) f.key, r0), ?_, hne1, hne2⟩
        rw [mem_facesMap_iff]
        exact ⟨hf, rfl⟩
  · intro fs ids h nodes
    rw [SkinBlocks] at h
    rw [emitFaces_mem_faces offset _ fs ids h nodes]
    constructor
    · rintro ⟨k, r, hmem, hn⟩
      rw [mem_facesMap_iff] at hmem
      obtain ⟨hf, hc⟩ := hmem
      obtain ⟨hrmem, hrkey⟩ := firstKey_mem _ _ _ hf
      exact ⟨r, hrmem, by rw [hrkey, ← hc], hn⟩
    · rintro ⟨r, hrmem, hocc, hn⟩
      refine ⟨r.key, r, ?_, hn⟩
      rw [mem_facesMap_iff]
      refine ⟨?_, hocc.symm⟩
      rw [firstKey]
      exact find?_eq_of_countP_one _ _ hocc r hrmem (by simp)

/-- Witness for C3: a single unit hex element (connectivity 0..7) is skinned
into exactly its six boundary faces; the face with nodes 0 1 5 4 is among
the output faces of the theorem. -/
theorem claim_C3_witness :
    ([0,1,5,4] : List ℕ) ∈
      ([[0,1,5,4],[1,2,6,5],[2,3,7,6],[0,4,7,3],[0,3,2,1],[4,5,6,7]] : List (List ℕ)) := by
  have h := (claim_C3 [⟨[⟨(fun i => (i : ℕ)), 0⟩]⟩] 0).2.2
    [[0,1,5,4],[1,2,6,5],[2,3,7,6],[0,4,7,3],[0,3,2,1],[4,5,6,7]]
    [32,36,40,44,48,52] (by decide) [0,1,5,4]
  exact h.mpr (by decide)

/-- The source's strict-greater update equals max. -/
theorem ifLtMax (a b : ℝ) : (if a < b then b else a) = max a b := by
  rcases le_or_lt b a with h | h
  · rw [if_neg (not_lt.mpr h), max_eq_left h]
  · rw [if_pos h, max_eq_right (le_of_lt h)]

/-- The recorded ids after one node: unchanged unless the node is new and
not ghosted, in which case it is appended. -/
theorem secStep_ids (gids : ℕ → ℕ) (ghosted : List ℕ) (cl : ℝ) (st : SecState) (m : ℕ) :
    (secStep gids ghosted cl st m).ids =
      if m ∉ ghosted ∧ m ∉ st.ids then st.ids ++ [m] else st.ids := by
  rw [secStep]
  by_cases hg : m ∈ ghosted
  · rw [if_pos hg, if_neg (by tauto)]
  · rw [if_neg hg]
    by_cases hi : m ∉ st.ids
    · rw [if_pos hi, if_pos ⟨hg, hi⟩]
    · rw [if_neg hi, if_neg (show ¬ (m ∉ ghosted ∧ m ∉ st.ids) from fun h => hi h.2)]
      by_cases hl : st.lens m < cl
      · rw [if_pos hl]
      · rw [if_neg hl]

/-- The recorded entity ids after one node: unchanged unless the node is new
and not ghosted, in which case its global id + 1 is appended. -/
theorem secStep_entityIds (gids : ℕ → ℕ) (ghosted : List ℕ) (cl : ℝ) (st : SecState) (m : ℕ) :
    (secStep gids ghosted cl st m).entityIds =
      if m ∉ ghosted ∧ m ∉ st.ids then st.entityIds ++ [gids m + 1] else st.entityIds := by
  rw [secStep]
  by_cases hg : m ∈ ghosted
  · rw [if_pos hg, if_neg (by tauto)]
  · rw [if_neg hg]
    by_cases hi : m ∉ st.ids
    · rw [if_pos hi, if_pos ⟨hg, hi⟩]
    · rw [if_neg hi, if_neg (show ¬ (m ∉ ghosted ∧ m ∉ st.ids) from fun h => hi h.2)]
      by_cases hl : st.lens m < cl
      · rw [if_pos hl]
      · rw [if_neg hl]

/-- The stored characteristic length after one node: at a non-ghosted
processed node it is the face value for a new node and the max with the
stored value for a seen node; elsewhere unchanged. -/
theorem secStep_lens (gids : ℕ → ℕ) (ghosted : List ℕ) (cl : ℝ) (st : SecState) (m n : ℕ) :
    (secStep gids ghosted cl st m).lens n =
      if n = m ∧ m ∉ ghosted then
        (if m ∈ st.ids then max (st.lens n) cl else cl)
      else st.lens n := by
  rw [secStep]
  by_cases hg : m ∈ ghosted
  · rw [if_pos hg, if_neg (show ¬ (n = m ∧ m ∉ ghosted) from fun h => h.2 hg)]
  · rw [if_neg hg]
    by_cases hn : n = m
    · subst hn
      rw [if_pos (show (n = n ∧ n ∉ ghosted) from ⟨rfl, hg⟩)]
      by_cases hi : n ∉ st.ids
      · rw [if_pos hi, if_neg hi]
        exact Function.update_same n cl st.lens
      · rw [if_neg hi, if_pos (not_not.mp hi)]
        by_cases hl : st.lens n < cl
        · rw [if_pos hl]
          exact (Function.update_same n cl st.lens).trans
            (max_eq_right (le_of_lt hl)).symm
        · rw [if_neg hl]
          exact (max_eq_left (not_lt.mp hl)).symm
    · rw [if_neg (show ¬ (n = m ∧ m ∉ ghosted) from fun h => hn h.1)]
      by_cases hi : m ∉ st.ids
      · rw [if_pos hi]
        exact Function.update_noteq hn cl st.lens
      · rw [if_neg hi]
        by_cases hl : st.lens m < cl
        · rw [if_pos hl]
          exact Function.update_noteq hn cl st.lens
        · rw [if_neg hl]

/-- Membership in the recorded ids after folding the per-node body over a
node list: the previously recorded ids plus the non-ghosted processed nodes. -/
theorem secFold_ids_mem (gids : ℕ → ℕ) (ghosted : List ℕ) (cl : ℝ)
    (ns : List ℕ) (st : SecState) (n : ℕ) :
    n ∈ (ns.foldl (secStep gids ghosted cl) st).ids ↔
      n ∈ st.ids ∨ (n ∈ ns ∧ n ∉ ghosted) := by
  induction ns generalizing st with
  | nil => simp
  | cons m tl ih =>
    rw [List.foldl_cons, ih]
    rw [secStep_ids]
    by_cases hc : m ∉ ghosted ∧ m ∉ st.ids
    · rw [if_pos hc]
      simp only [List.mem_append, List.mem_cons, List.not_mem_nil, or_false]
      constructor
      · rintro ((h | h) | ⟨h1, h2⟩)
        · exact Or.inl h
        · exact Or.inr ⟨Or.inl h, h ▸ hc.1⟩
        · exact Or.inr ⟨Or.inr h1, h2⟩
      · rintro (h | ⟨(h1 | h1), h2⟩)
        · exact Or.inl (Or.inl h)
        · exact Or.inl (Or.inr h1)
        · exact Or.inr ⟨h1, h2⟩
    · rw [if_neg hc]
      simp only [List.mem_cons]
      constructor
      · rintro (h | ⟨h1, h2⟩)
        · exact Or.inl h
        · exact Or.inr ⟨Or.inr h1, h2⟩
      · rintro (h | ⟨(h1 | h1), h2⟩)
        · exact Or.inl h
        · subst h1
          rcases not_and_or.mp hc with h3 | h3
          · exact absurd h2 (fun h4 => h3 h4)
          · exact Or.inl (not_not.mp h3)
        · exact Or.inr ⟨h1, h2⟩

/-- The recorded ids stay duplicate-free. -/
theorem secFold_ids_nodup (gids : ℕ → ℕ) (ghosted : List ℕ) (cl : ℝ)
    (ns : List ℕ) (st : SecState) (h : st.ids.Nodup) :
    (ns.foldl (secStep gids ghosted cl) st).ids.Nodup := by
  induction ns generalizing st with
  | nil => exact h
  | cons m tl ih =>
    rw [List.foldl_cons]
    apply ih
    rw [secStep_ids]
    by_cases hc : m ∉ ghosted ∧ m ∉ st.ids
    · rw [if_pos hc]
      rw [List.nodup_append]
      exact ⟨h, List.nodup_singleton m, by simpa using fun h2 => hc.2 h2⟩
    · rw [if_neg hc]
      exact h

/-- The entity-id list stays the image of the id list under
global id + 1. -/
theorem secFold_pair (gids : ℕ → ℕ) (ghosted : List ℕ) (cl : ℝ)
    (ns : List ℕ) (st : SecState)
    (h : st.entityIds = st.ids.map (fun n => gids n + 1)) :
    (ns.foldl (secStep gids ghosted cl) st).entityIds =
      (ns.foldl (secStep gids ghosted cl) st).ids.map (fun n => gids n + 1) := by
  induction ns generalizing st with
  | nil => exact h
  | cons m tl ih =>
    rw [List.foldl_cons]
    apply ih
    rw [secStep_ids, secStep_entityIds]
    by_cases hc : m ∉ ghosted ∧ m ∉ st.ids
    · rw [if_pos hc, if_pos hc, List.map_append, h]
      rfl
    · rw [if_neg hc, if_neg hc]
      exact h

/-- The stored characteristic length after folding the per-node body over a
node list: at a non-ghosted node of the list it is the face value for a new
node and the max with the stored value for a seen node; elsewhere unchanged. -/
theorem secFold_lens (gids : ℕ → ℕ) (ghosted : List ℕ) (cl : ℝ)
    (ns : List ℕ) (st : SecState) (n : ℕ) :
    (ns.foldl (secStep gids ghosted cl) st).lens n =
      if n ∈ ns ∧ n ∉ ghosted then
        (if n ∈ st.ids then max (st.lens n) cl else cl)
      else st.lens n := by
  induction ns generalizing st with
  | nil => simp
  | cons m tl ih =>
    rw [List.foldl_cons, ih, secStep_ids, secStep_lens]
    by_cases hg : n ∈ ghosted
    · rw [if_neg (show ¬ (n ∈ tl ∧ n ∉ ghosted) from fun h => h.2 hg),
        if_neg (show ¬ (n ∈ m :: tl ∧ n ∉ ghosted) from fun h => h.2 hg),
        if_neg (show ¬ (n = m ∧ m ∉ ghosted) from fun h => h.2 (h.1 ▸ hg))]
    · by_cases hm : n = m
      · subst hm
        rw [if_pos (show (n = n ∧ n ∉ ghosted) from ⟨rfl, hg⟩),
          if_pos (show (n ∈ n :: tl ∧ n ∉ ghosted) from ⟨List.mem_cons_self n tl, hg⟩)]
        by_cases hi : n ∈ st.ids
        · have hid2 : n ∈ (if n ∉ ghosted ∧ n ∉ st.ids then st.ids ++ [n] else st.ids) := by
            rw [if_neg (fun h => h.2 hi)]; exact hi
          rw [if_pos hi, if_pos hid2]
          by_cases ht : n ∈ tl
          · rw [if_pos (show (n ∈ tl ∧ n ∉ ghosted) from ⟨ht, hg⟩), max_assoc, max_self]
          · rw [if_neg (show ¬ (n ∈ tl ∧ n ∉ ghosted) from fun h => ht h.1)]
        · have hid2 : n ∈ (if n ∉ ghosted ∧ n ∉ st.ids then st.ids ++ [n] else st.ids) := by
            rw [if_pos ⟨hg, hi⟩]
            exact List.mem_append.mpr (Or.inr (List.mem_singleton.mpr rfl))
          rw [if_neg hi, if_pos hid2]
          by_cases ht : n ∈ tl
          · rw [if_pos (show (n ∈ tl ∧ n ∉ ghosted) from ⟨ht, hg⟩), max_self]
          · rw [if_neg (show ¬ (n ∈ tl ∧ n ∉ ghosted) from fun h => ht h.1)]
      · rw [if_neg (show ¬ (n = m ∧ m ∉ ghosted) from fun h => hm h.1)]
        have hiff : (n ∈ (if m ∉ ghosted ∧ m ∉ st.ids then st.ids ++ [m] else st.ids)) ↔
            n ∈ st.ids := by
          by_cases hc : m ∉ ghosted ∧ m ∉ st.ids
          · rw [if_pos hc]
            simp [List.mem_append, hm]
          · rw [if_neg hc]
        by_cases ht : n ∈ tl
        · rw [if_pos (show (n ∈ tl ∧ n ∉ ghosted) from ⟨ht, hg⟩),
            if_pos (show (n ∈ m :: tl ∧ n ∉ ghosted) from ⟨List.mem_cons_of_mem m ht, hg⟩)]
          by_cases hi : n ∈ st.ids
          · rw [if_pos (hiff.mpr hi), if_pos hi]
          · rw [if_neg (fun h => hi (hiff.mp h)), if_neg hi]
        · rw [if_neg (show ¬ (n ∈ tl ∧ n ∉ ghosted) from fun h => ht h.1),
            if_neg (show ¬ (n ∈ m :: tl ∧ n ∉ ghosted) from fun h => by
              rcases List.mem_cons.mp h.1 with h2 | h2
              · exact hm h2
              · exact ht h2)]

/-- Invariant of the secondary-node loop over the face list: distinct
recorded ids, entity ids = global id + 1 in the same order, recorded nodes =
non-ghosted nodes of processed faces, and the stored characteristic length =
maximum face characteristic length over the processed faces containing the
node. -/
theorem secondaryNodes_inv (coord : ℕ → Vec3) (gids : ℕ → ℕ) (ghosted : List ℕ)
    (faces P : List (List ℕ)) (st : SecState)
    (hnd : st.ids.Nodup)
    (hpair : st.entityIds = st.ids.map (fun n => gids n + 1))
    (hmem : ∀ n, n ∈ st.ids ↔ n ∉ ghosted ∧ ∃ f ∈ P, n ∈ f)
    (hlens : ∀ n ∈ st.ids,
      ((P.filter (fun f => decide (n ∈ f))).map (secCharLen coord)).maximum =
        some (st.lens n)) :
    ((faces.foldl
      (fun st2 face => face.foldl (secStep gids ghosted (secCharLen coord face)) st2)
      st).ids.Nodup) ∧
    ((faces.foldl
      (fun st2 face => face.foldl (secStep gids ghosted (secCharLen coord face)) st2)
      st).entityIds =
      (faces.foldl
      (fun st2 face => face.foldl (secStep gids ghosted (secCharLen coord face)) st2)
      st).ids.map (fun n => gids n + 1)) ∧
    (∀ n, n ∈ (faces.foldl
      (fun st2 face => face.foldl (secStep gids ghosted (secCharLen coord face)) st2)
      st).ids ↔ n ∉ ghosted ∧ ∃ f ∈ P ++ faces, n ∈ f) ∧
    (∀ n ∈ (faces.foldl
      (fun st2 face => face.foldl (secStep gids ghosted (secCharLen coord face)) st2)
      st).ids,
      (((P ++ faces).filter (fun f => decide (n ∈ f))).map (secCharLen coord)).maximum =
        some ((faces.foldl
          (fun st2 face => face.foldl (secStep gids ghosted (secCharLen coord face)) st2)
          st).lens n)) := by
  induction faces generalizing P st with
  | nil =>
    simp only [List.foldl_nil, List.append_nil]
    exact ⟨hnd, hpair, hmem, hlens⟩
  | cons face tl ih =>
    rw [List.foldl_cons]
    have hres := ih (P ++ [face])
      (face.foldl (secStep gids ghosted (secCharLen coord face)) st)
      (secFold_ids_nodup _ _ _ _ _ hnd)
      (secFold_pair _ _ _ _ _ hpair)
      (by
        intro n
        rw [secFold_ids_mem, hmem]
        constructor
        · rintro (⟨h1, f2, h2, h3⟩ | ⟨h1, h2⟩)
          · exact ⟨h1, f2, List.mem_append.mpr (Or.inl h2), h3⟩
          · exact ⟨h2, face, List.mem_append.mpr (Or.inr (List.mem_singleton.mpr rfl)), h1⟩
        · rintro ⟨h1, f2, h2, h3⟩
          rcases List.mem_append.mp h2 with h4 | h4
          · exact Or.inl ⟨h1, f2, h4, h3⟩
          · rw [List.mem_singleton.mp h4] at h3
            exact Or.inr ⟨h3, h1⟩)
      (by
        intro n hn
        rw [secFold_ids_mem] at hn
        have hng : n ∉ ghosted := by
          rcases hn with h | h
          · exact ((hmem n).mp h).1
          · exact h.2
        rw [secFold_lens, List.filter_append, List.map_append]
        by_cases hf : n ∈ face
        · have hfil : List.filter (fun f => decide (n ∈ f)) [face] = [face] := by
            simp [hf]
          rw [hfil]
          by_cases hi : n ∈ st.ids
          · rw [if_pos ⟨hf, hng⟩, if_pos hi]
            have h0 := hlens n hi
            rw [List.map_singleton, List.maximum_concat, h0]
            rfl
          · rw [if_pos ⟨hf, hng⟩, if_neg hi]
            have hfil0 : List.filter (fun f => decide (n ∈ f)) P = [] := by
              rw [List.filter_eq_nil_iff]
              intro f2 hf2
              simp only [decide_eq_true_eq]
              intro hnf2
              exact hi ((hmem n).mpr ⟨hng, f2, hf2, hnf2⟩)
            rw [hfil0, List.map_nil, List.map_singleton, List.nil_append,
              List.maximum_cons, List.maximum_nil]
            rfl
        · have hfil : List.filter (fun f => decide (n ∈ f)) [face] = [] := by
            simp [hf]
          rw [hfil, List.map_nil, List.append_nil,
            if_neg (show ¬ (n ∈ face ∧ n ∉ ghosted) from fun h => hf h.1)]
          have hi : n ∈ st.ids := by
            rcases hn with h | h
            · exact h
            · exact absurd h.1 hf
          exact hlens n hi)
    refine ⟨hres.1, hres.2.1, ?_, ?_⟩
    · intro n
      rw [hres.2.2.1 n, List.append_assoc]
      rfl
    · intro n hn
      have h0 := hres.2.2.2 n hn
      rw [List.append_assoc] at h0
      exact h0

/-- C8: each non-ghosted node of a secondary skin face is recorded exactly
once (the recorded ids are duplicate-free and are exactly the non-ghosted
nodes of the faces), its output entity id is its mesh node global id + 1 (in
matching order), its stored characteristic length is the maximum over all
secondary faces containing it of the face's longest edge length, and ghosted
nodes are never recorded. -/
theorem claim_C8 (coord : ℕ → Vec3) (gids : ℕ → ℕ) (ghosted : List ℕ)
    (faces : List (List ℕ)) :
    ((secondaryNodes coord gids ghosted faces).ids.Nodup) ∧
    ((secondaryNodes coord gids ghosted faces).entityIds =
      (secondaryNodes coord gids ghosted faces).ids.map (fun n => gids n + 1)) ∧
    (∀ n, n ∈ (secondaryNodes coord gids ghosted faces).ids ↔
      n ∉ ghosted ∧ ∃ f ∈ faces, n ∈ f) ∧
    (∀ n ∈ (secondaryNodes coord gids ghosted faces).ids,
      ((faces.filter (fun f => decide (n ∈ f))).map (secCharLen coord)).maximum =
        some ((secondaryNodes coord gids ghosted faces).lens n)) := by
  have h := secondaryNodes_inv coord gids ghosted faces []
    { ids := [], entityIds := [], lens := fun _ => 0 }
    (by simp) (by simp) (by simp) (by intro n hn; simp at hn)
  rw [List.nil_append] at h
  exact h

/-- Witness for C8: with secondary face [0,1,2,3] and node 2 ghosted, node 1
is recorded as a secondary contact node. -/
theorem claim_C8_witness :
    (1 : ℕ) ∈ (secondaryNodes (fun _ => ⟨0,0,0⟩) (fun n => n) [2] [[0,1,2,3]]).ids := by
  exact ((claim_C8 (fun _ => ⟨0,0,0⟩) (fun n => n) [2] [[0,1,2,3]]).2.2.1 1).mpr
    ⟨by decide, [0,1,2,3], by simp, by decide⟩

/-! ### Entity-id packing (claims C5 and C6) -/

/-- A bit below position k of a shifted-up value is clear. -/
theorem testBit_mul_pow_low (a k i : ℕ) (hi : i < k) :
    (a * 2 ^ k).testBit i = false := by
  rw [← Nat.shiftLeft_eq, Nat.testBit_shiftLeft]
  simp [Nat.not_le.mpr hi]

/-- Low bits of a shifted-up value plus a small remainder come from the
remainder. -/
theorem testBit_mul_pow_add_low (a b k i : ℕ) (hi : i < k) :
    (a * 2 ^ k + b).testBit i = b.testBit i := by
  have hik : i ≤ k := le_of_lt hi
  have h1 : a * 2 ^ k + b = b + a * 2 ^ (k - i) * 2 ^ i := by
    rw [mul_assoc, ← pow_add, Nat.sub_add_cancel hik, Nat.add_comm]
  rw [Nat.testBit_to_div_mod, Nat.testBit_to_div_mod, h1,
    Nat.add_mul_div_right _ _ (Nat.pos_pow_of_pos i (by norm_num))]
  have h2 : a * 2 ^ (k - i) = a * 2 ^ (k - i - 1) * 2 := by
    rw [mul_assoc, ← pow_succ]
    congr 2
    omega
  rw [h2, Nat.add_mul_mod_self_right]

/-- High bits of a shifted-up value plus a small remainder come from the
shifted value. -/
theorem testBit_mul_pow_add_high (a b k i : ℕ) (hb : b < 2 ^ k) (hi : k ≤ i) :
    (a * 2 ^ k + b).testBit i = a.testBit (i - k) := by
  rw [Nat.testBit_to_div_mod, Nat.testBit_to_div_mod]
  have h2 : (2 : ℕ) ^ i = 2 ^ k * 2 ^ (i - k) := by
    rw [← pow_add]
    congr 1
    omega
  have h1 : (a * 2 ^ k + b) / 2 ^ i = a / 2 ^ (i - k) := by
    rw [h2, ← Nat.div_div_eq_div_mul]
    congr 1
    rw [mul_comm a, Nat.mul_add_div (Nat.pos_pow_of_pos k (by norm_num)),
      Nat.div_eq_of_lt hb, Nat.add_zero]
  rw [h1]

/-- Bitwise or of a shifted-up value with a small remainder is addition. -/
theorem mul_pow_lor_eq_add (a b k : ℕ) (hb : b < 2 ^ k) :
    (a * 2 ^ k) ||| b = a * 2 ^ k + b := by
  apply Nat.eq_of_testBit_eq
  intro i
  rw [Nat.testBit_lor]
  by_cases hi : i < k
  · rw [testBit_mul_pow_low a k i hi, testBit_mul_pow_add_low a b k i hi, Bool.false_or]
  · push_neg at hi
    have h2 : b.testBit i = false :=
      Nat.testBit_eq_false_of_lt
        (lt_of_lt_of_le hb (Nat.pow_le_pow_right (by norm_num) hi))
    have h3 : (a * 2 ^ k).testBit i = a.testBit (i - k) := by
      rw [← Nat.shiftLeft_eq, Nat.testBit_shiftLeft]
      simp [hi]
    rw [h2, h3, testBit_mul_pow_add_high a b k i hb hi, Bool.or_false]

/-- The packed entity id as plain arithmetic, for face ordinal below 8 and
triangle ordinal below 4. -/
theorem packedFaceId_eq_arith (egid1b offset f t : ℕ) (hf : f < 8) (ht : t < 4) :
    packedFaceId egid1b offset f t = 32 * (egid1b + offset) + 4 * f + t := by
  rw [packedFaceId, Nat.shiftLeft_eq, Nat.shiftLeft_eq]
  have h3 : f * 2 ^ 2 ||| t = f * 2 ^ 2 + t :=
    mul_pow_lor_eq_add f t 2 (by norm_num [ht])
  have hlt : f * 2 ^ 2 + t < 2 ^ 5 := by norm_num; omega
  rw [Nat.lor_assoc, h3, mul_pow_lor_eq_add _ _ 5 hlt]
  ring

/-- C6: with the entity-id offset O at least every node global id, distinct
(1-based element global id, face ordinal, triangle ordinal) triples give
distinct packed face entity ids, and every node entity id (node global id
+ 1) differs from every packed face entity id. -/
theorem claim_C6 (O e1 f1 t1 e2 f2 t2 g : ℕ)
    (he1 : 1 ≤ e1) (hf1 : f1 ≤ 5) (ht1 : t1 ≤ 3)
    (he2 : 1 ≤ e2) (hf2 : f2 ≤ 5) (ht2 : t2 ≤ 3) (hg : g ≤ O) :
    (packedFaceId e1 O f1 t1 = packedFaceId e2 O f2 t2 →
      e1 = e2 ∧ f1 = f2 ∧ t1 = t2) ∧
    g + 1 ≠ packedFaceId e1 O f1 t1 := by
  rw [packedFaceId_eq_arith e1 O f1 t1 (by omega) (by omega),
    packedFaceId_eq_arith e2 O f2 t2 (by omega) (by omega)]
  constructor
  · intro h
    omega
  · omega

/-- Witness for C6: node global id 10 with offset 20 never collides with the
face id packed from element 1, face ordinal 0, triangle ordinal 0. -/
theorem claim_C6_witness :
    (10 : ℕ) ≤ 20 ∧ (10 : ℕ) + 1 ≠ packedFaceId 1 20 0 0 :=
  ⟨by norm_num,
    (claim_C6 20 1 0 0 1 0 0 10 (by norm_num) (by norm_num) (by norm_num)
      (by norm_num) (by norm_num) (by norm_num) (by norm_num)).2⟩

/-- Every generated face carries an ordinal among 0..5. -/
theorem allFaces_ordinal_lt (blocks : List HexBlock) :
    ∀ r ∈ allFaces blocks, r.ordinal < 6 := by
  intro r hr
  rw [allFaces, List.mem_flatMap] at hr
  obtain ⟨e, he, hf⟩ := hr
  rw [hexFaces] at hf
  simp only [List.mem_cons, List.not_mem_nil, or_false] at hf
  rcases hf with h|h|h|h|h|h <;> subst h <;> norm_num [mkFace]

/-- Or-ing a triangle ordinal into a skinning entity id gives the packed id. -/
theorem skinEntityId_lor (r : FaceRec) (offset t : ℕ) :
    skinEntityId r offset ||| t = packedFaceId r.elemGlobalId offset r.ordinal t := by
  rw [skinEntityId, packedFaceId, Nat.or_zero]

/-- C5: every face entity id emitted by SkinBlocks is the packed id of its
generating element and face ordinal with triangle ordinal 0, and or-ing any
triangle ordinal 0..3 during triangulation yields the packed id with that
ordinal; node-type contact entities instead carry mesh node global id + 1,
in the order of the recorded secondary nodes. -/
theorem claim_C5 (blocks : List HexBlock) (offset : ℕ) (fs : List (List ℕ))
    (ids : List ℕ) (coord : ℕ → Vec3) (gids : ℕ → ℕ) (ghosted : List ℕ)
    (sfaces : List (List ℕ)) :
    (SkinBlocks blocks offset = some (fs, ids) →
      ∀ nodes id, (nodes, id) ∈ fs.zip ids →
        ∃ r ∈ allFaces blocks, r.ordinal < 6 ∧
          id = packedFaceId r.elemGlobalId offset r.ordinal 0 ∧
          ∀ t, t < 4 → id ||| t = packedFaceId r.elemGlobalId offset r.ordinal t) ∧
    ((secondaryNodes coord gids ghosted sfaces).entityIds =
      (secondaryNodes coord gids ghosted sfaces).ids.map (fun n => gids n + 1)) := by
  constructor
  · intro h nodes id hmem
    rw [SkinBlocks] at h
    obtain ⟨k, r, hmap, hn, hi⟩ := (emitFaces_mem_zip offset _ fs ids h nodes id).mp hmem
    rw [mem_facesMap_iff] at hmap
    obtain ⟨hrmem, hrkey⟩ := firstKey_mem _ _ _ hmap.1
    refine ⟨r, hrmem, allFaces_ordinal_lt blocks r hrmem, ?_, ?_⟩
    · rw [hi, skinEntityId, packedFaceId]
    · intro t ht
      rw [hi, skinEntityId_lor]
  · have h := secondaryNodes_inv coord gids ghosted sfaces []
      { ids := [], entityIds := [], lens := fun _ => 0 }
      (by simp) (by simp) (by simp) (by intro n hn; simp at hn)
    exact h.2.1

/-- Witness for C5: in the one-element mesh, the emitted face [0,1,5,4] with
entity id 32 comes from a generated face record, and or-ing the triangle
ordinals yields the packed ids. -/
theorem claim_C5_witness :
    ∃ r ∈ allFaces [⟨[⟨(fun i => (i : ℕ)), 0⟩]⟩], r.ordinal < 6 ∧
      (32 : ℕ) = packedFaceId r.elemGlobalId 0 r.ordinal 0 ∧
      ∀ t, t < 4 → (32 : ℕ) ||| t = packedFaceId r.elemGlobalId 0 r.ordinal t := by
  exact (claim_C5 [⟨[⟨(fun i => (i : ℕ)), 0⟩]⟩] 0
    [[0,1,5,4],[1,2,6,5],[2,3,7,6],[0,4,7,3],[0,3,2,1],[4,5,6,7]]
    [32,36,40,44,48,52] (fun _ => ⟨0,0,0⟩) (fun n => n) [] []).1 (by decide)
    [0,1,5,4] 32 (by decide)

/-- The triangulation aborts exactly when some processed face does not have
4 nodes. -/
theorem createAux_none_iff (coord : ℕ → Vec3) (prs : List (List ℕ × ℕ)) (idx : ℕ) :
    createContactFacesAux coord prs idx = none ↔ ∃ pr ∈ prs, pr.1.length ≠ 4 := by
  induction prs generalizing idx with
  | nil => simp [createContactFacesAux]
  | cons hd tl ih =>
    obtain ⟨face, eid⟩ := hd
    rw [createContactFacesAux]
    by_cases h4 : face.length ≠ 4
    · rw [if_pos h4]
      constructor
      · intro _
        exact ⟨(face, eid), List.mem_cons_self _ _, h4⟩
      · intro _
        rfl
    · rw [if_neg h4]
      cases he : createContactFacesAux coord tl (idx + 4) with
      | none =>
        obtain ⟨pr, hmem, hne⟩ := (ih (idx + 4)).mp he
        constructor
        · intro _
          exact ⟨pr, List.mem_cons_of_mem _ hmem, hne⟩
        · intro _
          rfl
      | some rest =>
        constructor
        · intro h
          simp at h
        · rintro ⟨pr, hmem, hne⟩
          rcases List.mem_cons.mp hmem with hh | ht
          · exact absurd (hh ▸ hne) (by simpa using h4)
          · exact absurd ((ih (idx + 4)).mpr ⟨pr, ht, hne⟩) (by rw [he]; simp)

/-- The triangulation emits 4 triangles per processed face. -/
theorem createAux_length (coord : ℕ → Vec3) (prs : List (List ℕ × ℕ)) (idx : ℕ)
    (ts : List ContactTriangle) (h : createContactFacesAux coord prs idx = some ts) :
    ts.length = 4 * prs.length := by
  induction prs generalizing idx ts with
  | nil =>
    rw [createContactFacesAux] at h
    cases h
    rfl
  | cons hd tl ih =>
    obtain ⟨face, eid⟩ := hd
    rw [createContactFacesAux] at h
    by_cases h4 : face.length ≠ 4
    · rw [if_pos h4] at h
      simp at h
    · rw [if_neg h4] at h
      cases he : createContactFacesAux coord tl (idx + 4) with
      | none => rw [he] at h; simp at h
      | some rest =>
        rw [he] at h
        cases h
        rw [List.length_append, ih (idx + 4) rest he]
        simp [mkTriangles]
        ring

/-- The triangle at output position 4*i + t is triangle t of face i. -/
theorem createAux_getD (coord : ℕ → Vec3) (prs : List (List ℕ × ℕ)) (idx : ℕ)
    (ts : List ContactTriangle) (h : createContactFacesAux coord prs idx = some ts)
    (i : ℕ) (hi : i < prs.length) (t : ℕ) (ht : t < 4) :
    ts.getD (4 * i + t) default =
      (mkTriangles coord (prs.getD i ([], 0)).1 (prs.getD i ([], 0)).2
        (idx + 4 * i)).getD t default := by
  induction prs generalizing idx ts i with
  | nil => simp at hi
  | cons hd tl ih =>
    obtain ⟨face, eid⟩ := hd
    rw [createContactFacesAux] at h
    by_cases h4 : face.length ≠ 4
    · rw [if_pos h4] at h
      simp at h
    · rw [if_neg h4] at h
      cases he : createContactFacesAux coord tl (idx + 4) with
      | none => rw [he] at h; simp at h
      | some rest =>
        rw [he] at h
        cases h
        have hlen : (mkTriangles coord face eid idx).length = 4 := by
          simp [mkTriangles]
        cases i with
        | zero =>
          have h1 : (mkTriangles coord face eid idx ++ rest).getD (4 * 0 + t) default =
              (mkTriangles coord face eid idx).getD (4 * 0 + t) default :=
            List.getD_append _ _ _ _ (by omega)
          rw [h1]
          have h2 : (4 : ℕ) * 0 + t = t := by omega
          have h3 : idx + 4 * 0 = idx := by omega
          rw [h2, h3, List.getD_cons_zero]
        | succ j =>
          have h1 : (mkTriangles coord face eid idx ++ rest).getD (4 * (j + 1) + t) default =
              rest.getD (4 * (j + 1) + t - (mkTriangles coord face eid idx).length) default :=
            List.getD_append_right _ _ _ _ (by omega)
          rw [h1, hlen]
          have h2 : 4 * (j + 1) + t - 4 = 4 * j + t := by omega
          have h3 : idx + 4 * (j + 1) = idx + 4 + 4 * j := by omega
          rw [h2, h3, List.getD_cons_succ]
          exact ih (idx + 4) rest he j (by simpa using Nat.lt_of_succ_lt_succ hi)

/-- The strict-greater scan over four values is their maximum. -/
theorem maxFold_four (a b c d : ℝ) :
    maxFold [a, b, c, d] = max (max (max a b) c) d := by
  rw [maxFold]
  simp only [List.foldl_cons, List.foldl_nil, gt_iff_lt, ifLtMax]

/-- The characteristic length of a 4-node face: the largest of the four
Euclidean edge lengths, with wrap-around at the last edge. -/
theorem primCharLen_quad (coord : ℕ → Vec3) (n0 n1 n2 n3 : ℕ) :
    primCharLen coord [n0, n1, n2, n3] =
      max (max (max (Real.sqrt (distSq (coord n1) (coord n0)))
        (Real.sqrt (distSq (coord n2) (coord n1))))
        (Real.sqrt (distSq (coord n3) (coord n2))))
        (Real.sqrt (distSq (coord n0) (coord n3))) := by
  have h1 : faceEdgeLens coord [n0, n1, n2, n3] =
      [Real.sqrt (distSq (coord n1) (coord n0)),
       Real.sqrt (distSq (coord n2) (coord n1)),
       Real.sqrt (distSq (coord n3) (coord n2)),
       Real.sqrt (distSq (coord n0) (coord n3))] := rfl
  rw [primCharLen, h1, maxFold_four]

/-- The fictitious node of a 4-node face is the arithmetic mean of the four
node coordinates. -/
theorem fictitiousNode_quad (coord : ℕ → Vec3) (n0 n1 n2 n3 : ℕ) :
    fictitiousNode coord [n0, n1, n2, n3] =
      ⟨((coord n0).x + (coord n1).x + (coord n2).x + (coord n3).x) / 4,
       ((coord n0).y + (coord n1).y + (coord n2).y + (coord n3).y) / 4,
       ((coord n0).z + (coord n1).z + (coord n2).z + (coord n3).z) / 4⟩ := by
  rw [fictitiousNode]
  simp [List.sum_cons]
  norm_num [add_assoc]

/-- C4: every primary skin face with exactly 4 nodes produces 4 TRIANGLE
entities with vertex pairs (n0,n1), (n1,n2), (n2,n3), (n3,n0) fanned to the
barycenter (mean of the 4 node coordinates), each carrying the quad's
longest Euclidean edge (with wrap-around) as characteristic length and the
face entity id or-ed with its triangle ordinal; a face whose node count is
not 4 aborts. -/
theorem claim_C4 (coord : ℕ → Vec3) (faces : List (List ℕ)) (ids : List ℕ) :
    (createContactFaces coord faces ids = none ↔
      ∃ pr ∈ faces.zip ids, pr.1.length ≠ 4) ∧
    (∀ ts, createContactFaces coord faces ids = some ts →
      ts.length = 4 * (faces.zip ids).length ∧
      ∀ i n0 n1 n2 n3 eid,
        i < (faces.zip ids).length →
        (faces.zip ids).getD i ([], 0) = ([n0, n1, n2, n3], eid) →
        ∀ t nA nB, t < 4 →
          [n0, n1, n2, n3].getD t 0 = nA →
          [n0, n1, n2, n3].getD ((t + 1) % 4) 0 = nB →
          ts.getD (4 * i + t) default =
            { entityId := eid ||| t
              localIndex := 4 * i + t
              v1 := coord nA
              v2 := coord nB
              v3 := ⟨((coord n0).x + (coord n1).x + (coord n2).x + (coord n3).x) / 4,
                     ((coord n0).y + (coord n1).y + (coord n2).y + (coord n3).y) / 4,
                     ((coord n0).z + (coord n1).z + (coord n2).z + (coord n3).z) / 4⟩
              charLen := max (max (max (Real.sqrt (distSq (coord n1) (coord n0)))
                  (Real.sqrt (distSq (coord n2) (coord n1))))
                  (Real.sqrt (distSq (coord n3) (coord n2))))
                  (Real.sqrt (distSq (coord n0) (coord n3)))
              nodeId1 := nA
              nodeId2 := nB
              fictitiousNodeIds := [n0, n1, n2, n3] }) := by
  constructor
  · exact createAux_none_iff coord (faces.zip ids) 0
  · intro ts h
    refine ⟨createAux_length coord _ 0 ts h, ?_⟩
    intro i n0 n1 n2 n3 eid hi hface t nA nB ht hA hB
    subst hA
    subst hB
    have hg := createAux_getD coord (faces.zip ids) 0 ts h i hi t ht
    rw [hface] at hg
    rw [hg]
    interval_cases t <;>
      simp only [mkTriangles, List.getD_cons_zero, List.getD_cons_succ, mkTri,
        primCharLen_quad, fictitiousNode_quad, Nat.zero_add] <;>
      norm_num

/-- Witness for C4: a 3-node face aborts the construction. -/
theorem claim_C4_witness :
    createContactFaces (fun _ => ⟨0, 0, 0⟩) [[0, 1, 2]] [7] = none := by
  exact (claim_C4 (fun _ => ⟨0, 0, 0⟩) [[0, 1, 2]] [7]).1.mpr
    ⟨([0, 1, 2], 7), by simp, by norm_num⟩

/-- A successful lookup returns an in-range index whose key matches. -/
theorem faceLookupAux_some (keys : List (List ℕ)) (q : List ℕ) (i0 j : ℕ)
    (h : faceLookupAux keys q i0 = some j) :
    i0 ≤ j ∧ j - i0 < keys.length ∧ keys.getD (j - i0) [] = q := by
  induction keys generalizing i0 with
  | nil => simp [faceLookupAux] at h
  | cons k tl ih =>
    rw [faceLookupAux] at h
    by_cases hk : k = q
    · rw [if_pos hk] at h
      have h2 : i0 = j := by simpa using h
      subst h2
      simp [hk]
    · rw [if_neg hk] at h
      obtain ⟨h1, h2, h3⟩ := ih (i0 + 1) h
      refine ⟨by omega, by simp; omega, ?_⟩
      have h4 : j - i0 = (j - (i0 + 1)) + 1 := by omega
      rw [h4, List.getD_cons_succ]
      exact h3

/-- A key at an in-range index is found by lookup (at the first index with
that key; with distinct keys, at the index itself). -/
theorem faceLookupAux_of_getD (keys : List (List ℕ)) (q : List ℕ) (i0 i : ℕ)
    (hnd : keys.Nodup) (hi : i < keys.length) (hq : keys.getD i [] = q) :
    faceLookupAux keys q i0 = some (i0 + i) := by
  induction keys generalizing i0 i with
  | nil => simp at hi
  | cons k tl ih =>
    rw [faceLookupAux]
    cases i with
    | zero =>
      rw [List.getD_cons_zero] at hq
      rw [if_pos hq]
      rfl
    | succ i2 =>
      rw [List.getD_cons_succ] at hq
      have hk : k ≠ q := by
        intro hc
        apply (List.nodup_cons.mp hnd).1
        rw [hc, ← hq]
        have hlt : i2 < tl.length := by simpa using Nat.lt_of_succ_lt_succ hi
        rw [List.getD_eq_getElem tl [] hlt]
        exact List.getElem_mem hlt
      rw [if_neg hk]
      have h2 := ih (i0 + 1) i2 (List.nodup_cons.mp hnd).2
        (by simpa using Nat.lt_of_succ_lt_succ hi) hq
      rw [h2]
      congr 1
      omega

/-- Setting a flag keeps the flag-list length. -/
theorem markFlags_length (keys received : List (List ℕ)) (flags : List Bool) :
    (markFlags keys received flags).length = flags.length := by
  induction received generalizing flags with
  | nil => rfl
  | cons q tl ih =>
    rw [markFlags, List.foldl_cons]
    cases h : faceLookup keys q with
    | none =>
      rw [← markFlags]
      exact ih flags
    | some i =>
      rw [← markFlags]
      rw [ih (flags.set i true), List.length_set]

/-- Reading the flag written at the same index. -/
theorem getD_set_self (l : List Bool) (j : ℕ) (hj : j < l.length) :
    (l.set j true).getD j false = true := by
  rw [List.getD_eq_getElem _ _ (by rw [List.length_set]; exact hj)]
  exact List.getElem_set_self _

/-- Reading a flag different from the one written. -/
theorem getD_set_ne (l : List Bool) (i j : ℕ) (h : j ≠ i) :
    (l.set j true).getD i false = l.getD i false := by
  rcases lt_or_ge i l.length with hi | hi
  · rw [List.getD_eq_getElem _ _ (by rw [List.length_set]; exact hi),
      List.getD_eq_getElem _ _ hi]
    exact List.getElem_set_ne h _
  · rw [List.getD_eq_default _ _ (by rw [List.length_set]; exact hi),
      List.getD_eq_default _ _ hi]

/-- A flag is set after the marking loop exactly when it was set before or
some received quadruple looks up to its index. -/
theorem markFlags_getD (keys received : List (List ℕ)) (flags : List Bool) (i : ℕ)
    (hlen : keys.length ≤ flags.length) :
    (markFlags keys received flags).getD i false = true ↔
      flags.getD i false = true ∨ ∃ q ∈ received, faceLookup keys q = some i := by
  induction received generalizing flags with
  | nil => simp [markFlags]
  | cons q tl ih =>
    rw [markFlags, List.foldl_cons, ← markFlags]
    cases h : faceLookup keys q with
    | none =>
      rw [ih flags hlen]
      constructor
      · rintro (h1 | ⟨q2, h2, h3⟩)
        · exact Or.inl h1
        · exact Or.inr ⟨q2, List.mem_cons_of_mem _ h2, h3⟩
      · rintro (h1 | ⟨q2, h2, h3⟩)
        · exact Or.inl h1
        · rcases List.mem_cons.mp h2 with h4 | h4
          · rw [h4] at h3
            rw [h3] at h
            simp at h
          · exact Or.inr ⟨q2, h4, h3⟩
    | some j =>
      rw [ih (flags.set j true) (by rw [List.length_set]; exact hlen)]
      by_cases hij : i = j
      · subst hij
        constructor
        · intro _
          exact Or.inr ⟨q, List.mem_cons_self _ _, h⟩
        · intro _
          left
          apply getD_set_self
          have h2 := faceLookupAux_some keys q 0 i h
          omega
      · rw [getD_set_ne flags i j (fun hc => hij hc.symm)]
        constructor
        · rintro (h1 | ⟨q2, h2, h3⟩)
          · exact Or.inl h1
          · exact Or.inr ⟨q2, List.mem_cons_of_mem _ h2, h3⟩
        · rintro (h1 | ⟨q2, h2, h3⟩)
          · exact Or.inl h1
          · rcases List.mem_cons.mp h2 with h4 | h4
            · rw [h4] at h3
              rw [h3] at h
              have h5 : i = j := by simpa using h
              exact absurd h5 hij
            · exact Or.inr ⟨q2, h4, h3⟩

/-- Compacting two parallel lists with the same flags keeps them paired. -/
theorem compact_zip {α β : Type} (l1 : List α) (l2 : List β) (fl : List Bool)
    (hlen : l1.length = l2.length) :
    (compact l1 fl).zip (compact l2 fl) = compact (l1.zip l2) fl := by
  induction l1 generalizing l2 fl with
  | nil =>
    cases l2 with
    | nil => cases fl <;> rfl
    | cons y ys => simp at hlen
  | cons x xs ih =>
    cases l2 with
    | nil => simp at hlen
    | cons y ys =>
      cases fl with
      | nil => rfl
      | cons b bs =>
        cases b
        · rw [compact, if_neg (by simp), compact, if_neg (by simp),
            List.zip_cons_cons, List.zip_cons_cons, compact, if_neg (by simp),
            ih ys bs (by simpa using hlen)]
        · rw [compact, if_pos (by simp), compact, if_pos (by simp),
            List.zip_cons_cons, compact, if_pos (by simp),
            ih ys bs (by simpa using hlen)]

/-- When each flag is the value of a predicate at its entry, compaction is
filtering by the negated predicate. -/
theorem compact_eq_filter {α : Type} (P : α → Bool) (l : List α) (fl : List Bool)
    (hlen : fl.length = l.length)
    (hpt : ∀ i (hi : i < l.length), fl.getD i false = P (l.get ⟨i, hi⟩)) :
    compact l fl = l.filter (fun x => ! P x) := by
  induction l generalizing fl with
  | nil =>
    cases fl with
    | nil => rfl
    | cons b bs => simp at hlen
  | cons x xs ih =>
    cases fl with
    | nil => simp at hlen
    | cons b bs =>
      have hb : b = P x := by
        have h0 := hpt 0 (by simp)
        simpa using h0
      have htl := ih bs (by simpa using hlen)
        (fun i hi => by
          have h0 := hpt (i + 1) (by simpa using Nat.succ_lt_succ hi)
          simpa using h0)
      rw [compact, List.filter_cons, htl, hb]
      cases hP : P x
      · rw [if_neg (by simp [hP]), if_pos (by simp [hP])]
      · rw [if_pos (by simp [hP]), if_neg (by simp [hP])]

/-- The face key at an in-range index. -/
theorem faceKeys_getD (gids : ℕ → ℕ) (faces : List (List ℕ)) (i : ℕ)
    (hi : i < faces.length) :
    (faceKeys gids faces).getD i [] = sortKey ((faces.getD i []).map gids) := by
  rw [List.getD_eq_getElem _ _ (by simpa [faceKeys] using hi),
    List.getD_eq_getElem _ _ hi]
  simp only [faceKeys, List.getElem_map]

/-- C7: with distinct sorted global-id quadruples over the local faces and
matching list lengths, a local face is marked for removal iff its sorted
global-id quadruple was received from another rank, and compaction keeps the
surviving faces paired with their entity ids in their original relative
order. -/
theorem claim_C7 (gids : ℕ → ℕ) (received faces : List (List ℕ))
    (entityIds : List ℕ) (hlen : entityIds.length = faces.length)
    (hinj : (faceKeys gids faces).Nodup) :
    (∀ i, i < faces.length →
      ((markFlags (faceKeys gids faces) received
          (List.replicate faces.length false)).getD i false = true ↔
        sortKey ((faces.getD i []).map gids) ∈ received)) ∧
    ((RemoveInternalSkinFaces gids received faces entityIds).1.zip
        (RemoveInternalSkinFaces gids received faces entityIds).2 =
      (faces.zip entityIds).filter
        (fun pr => ! (decide (sortKey (pr.1.map gids) ∈ received)))) := by
  have hkl : (faceKeys gids faces).length = faces.length := by simp [faceKeys]
  have hmark : ∀ i, i < faces.length →
      ((markFlags (faceKeys gids faces) received
          (List.replicate faces.length false)).getD i false = true ↔
        sortKey ((faces.getD i []).map gids) ∈ received) := by
    intro i hi
    rw [markFlags_getD _ _ _ i (by rw [hkl, List.length_replicate])]
    have hrep : (List.replicate faces.length false).getD i false = false := by
      rw [List.getD_eq_getElem _ _ (by simpa using hi), List.getElem_replicate]
    rw [hrep]
    simp only [Bool.false_eq_true, false_or]
    constructor
    · rintro ⟨q, hq, hlook⟩
      obtain ⟨h1, h2, h3⟩ := faceLookupAux_some _ _ _ _ hlook
      rw [Nat.sub_zero] at h3
      rw [← faceKeys_getD gids faces i hi, h3]
      exact hq
    · intro hq
      refine ⟨sortKey ((faces.getD i []).map gids), hq, ?_⟩
      rw [faceLookup]
      have h0 := faceLookupAux_of_getD (faceKeys gids faces)
        (sortKey ((faces.getD i []).map gids)) 0 i hinj (by omega)
        (faceKeys_getD gids faces i hi)
      simpa using h0
  refine ⟨hmark, ?_⟩
  rw [RemoveInternalSkinFaces]
  rw [compact_zip faces entityIds _ hlen.symm]
  apply compact_eq_filter
  · rw [markFlags_length, List.length_replicate, List.length_zip]
    omega
  · intro i hi
    have hiz : i < faces.length := by
      rw [List.length_zip] at hi
      omega
    have hget : (faces.zip entityIds).get ⟨i, hi⟩ =
        (faces.get ⟨i, hiz⟩, entityIds.get ⟨i, by omega⟩) := by
      rw [List.get_eq_getElem, List.getElem_zip]
      rfl
    rw [hget]
    have hfg : faces.get ⟨i, hiz⟩ = faces.getD i [] := by
      rw [List.get_eq_getElem, List.getD_eq_getElem _ _ hiz]
    rw [hfg]
    by_cases hq : sortKey ((faces.getD i []).map gids) ∈ received
    · rw [(hmark i hiz).mpr hq]
      exact (decide_eq_true hq).symm
    · have h2 : (markFlags (faceKeys gids faces) received
          (List.replicate faces.length false)).getD i false = false := by
        rcases Bool.eq_false_or_eq_true ((markFlags (faceKeys gids faces) received
          (List.replicate faces.length false)).getD i false) with h3 | h3
        · exact absurd ((hmark i hiz).mp h3) hq
        · exact h3
      rw [h2]
      exact (decide_eq_false hq).symm

/-- Witness for C7: a single local face whose quadruple is received is
removed together with its entity id. -/
theorem claim_C7_witness :
    (RemoveInternalSkinFaces (fun n => n) [[0,1,2,3]] [[0,1,2,3]] [5]).1.zip
      (RemoveInternalSkinFaces (fun n => n) [[0,1,2,3]] [[0,1,2,3]] [5]).2 =
      ([[0,1,2,3]].zip [5]).filter
        (fun pr => ! (decide (sortKey (pr.1.map (fun n => n)) ∈ [[0,1,2,3]]))) :=
  (claim_C7 (fun n => n) [[0,1,2,3]] [[0,1,2,3]] [5] (by decide) (by decide)).2

/-- C9: after ApplyDisplacements, slot 3*i+c of coord equals
model_coord[3*i+c] plus displacement[3*node_ids_[i]+c], and every contact
face and contact node entity has its vertex coordinates set from the updated
coord array. -/
theorem claim_C9 (nodeIds : ℕ → ℕ) (modelCoord disp : ℕ → ℝ)
    (faces : List ContactTriangle) (nodes : List ContactNodeEntity) :
    (∀ i c, c < 3 →
      (ApplyDisplacements nodeIds modelCoord disp faces nodes).1 (3 * i + c) =
        modelCoord (3 * i + c) + disp (3 * nodeIds i + c)) ∧
    ((ApplyDisplacements nodeIds modelCoord disp faces nodes).2.1 =
      faces.map (setCoordinatesTri (applyDisplacementsCoord nodeIds modelCoord disp))) ∧
    ((ApplyDisplacements nodeIds modelCoord disp faces nodes).2.2 =
      nodes.map (setCoordinatesNode (applyDisplacementsCoord nodeIds modelCoord disp))) := by
  refine ⟨?_, rfl, rfl⟩
  intro i c hc
  show modelCoord (3 * i + c) + disp (3 * nodeIds ((3 * i + c) / 3) + (3 * i + c) % 3) =
    modelCoord (3 * i + c) + disp (3 * nodeIds i + c)
  have h1 : (3 * i + c) / 3 = i := by omega
  have h2 : (3 * i + c) % 3 = c := by omega
  rw [h1, h2]

/-- Witness for C9: with identity node ids, coordinates k as reals and unit
displacement, slot 7 becomes 7 + 1. -/
theorem claim_C9_witness :
    (1 : ℕ) < 3 ∧
    (ApplyDisplacements (fun n => n) (fun k => (k : ℝ)) (fun _ => 1) [] []).1
      (3 * 2 + 1) = ((3 * 2 + 1 : ℕ) : ℝ) + 1 :=
  ⟨by norm_num,
    (claim_C9 (fun n => n) (fun k => (k : ℝ)) (fun _ => 1) [] []).1 2 1 (by norm_num)⟩

/-- A slot belonging to no processed node is untouched. -/
theorem getForcesAux_untouched (force : ℕ → ℝ) (l : List ℕ) (i0 : ℕ) (cf : ℕ → ℝ)
    (k : ℕ) (h : ∀ nid ∈ l, ∀ c, c < 3 → k ≠ 3 * nid + c) :
    getForcesAux force l i0 cf k = cf k := by
  induction l generalizing i0 cf with
  | nil => rfl
  | cons nid tl ih =>
    rw [getForcesAux, ih (i0 + 1) _ (fun n hn c hc => h n (List.mem_cons_of_mem _ hn) c hc)]
    rw [write3]
    have h0 := h nid (List.mem_cons_self _ _) 0 (by norm_num)
    have h1 := h nid (List.mem_cons_self _ _) 1 (by norm_num)
    have h2 := h nid (List.mem_cons_self _ _) 2 (by norm_num)
    rw [if_neg (by omega), if_neg h1, if_neg h2]

/-- The slot of node i receives force_[3*i+c] (carrying the loop offset). -/
theorem getForcesAux_get (force : ℕ → ℝ) (l : List ℕ) (i0 : ℕ) (cf : ℕ → ℝ)
    (hnd : l.Nodup) (i : ℕ) (hi : i < l.length) (c : ℕ) (hc : c < 3) :
    getForcesAux force l i0 cf (3 * l.get ⟨i, hi⟩ + c) = force (3 * (i0 + i) + c) := by
  induction l generalizing i0 cf i with
  | nil => simp at hi
  | cons nid tl ih =>
    rw [getForcesAux]
    cases i with
    | zero =>
      have hslot : ∀ nid2 ∈ tl, ∀ c2, c2 < 3 →
          3 * (nid :: tl).get ⟨0, hi⟩ + c ≠ 3 * nid2 + c2 := by
        intro nid2 hn c2 hc2
        have hne : nid ≠ nid2 := fun hc0 => (List.nodup_cons.mp hnd).1 (hc0 ▸ hn)
        show 3 * nid + c ≠ 3 * nid2 + c2
        omega
      rw [getForcesAux_untouched force tl (i0 + 1) _ _ hslot]
      show write3 force cf i0 nid (3 * nid + c) = force (3 * (i0 + 0) + c)
      rw [write3]
      interval_cases c
      · rw [if_pos (by omega)]
        norm_num
      · rw [if_neg (by omega), if_pos (by omega)]
        norm_num
      · rw [if_neg (by omega), if_neg (by omega), if_pos (by omega)]
        norm_num
    | succ j =>
      have h2 := ih (i0 + 1) (write3 force cf i0 nid) (List.nodup_cons.mp hnd).2 j
        (by simpa using Nat.lt_of_succ_lt_succ hi)
      rw [show ((nid :: tl).get ⟨j + 1, hi⟩) = tl.get ⟨j, by simpa using Nat.lt_of_succ_lt_succ hi⟩
        from rfl]
      rw [h2]
      congr 1
      omega

/-- C10: GetForces writes, for every submodel node i, the force triple
force_[3*i .. 3*i+2] into contact_force at the node's full-mesh slots by
direct assignment, and leaves every other slot of contact_force unchanged. -/
theorem claim_C10 (nodeIds : List ℕ) (force cf : ℕ → ℝ) (hnd : nodeIds.Nodup) :
    (∀ i (hi : i < nodeIds.length) (c : ℕ), c < 3 →
      GetForces nodeIds force cf (3 * nodeIds.get ⟨i, hi⟩ + c) = force (3 * i + c)) ∧
    (∀ k, (∀ nid ∈ nodeIds, ∀ c, c < 3 → k ≠ 3 * nid + c) →
      GetForces nodeIds force cf k = cf k) := by
  constructor
  · intro i hi c hc
    have h := getForcesAux_get force nodeIds 0 cf hnd i hi c hc
    rw [GetForces, h, Nat.zero_add]
  · intro k hk
    exact getForcesAux_untouched force nodeIds 0 cf k hk

/-- Witness for C10: with nodes [4, 2], slot 3*2+1 of contact_force receives
force_[3*1+1]. -/
theorem claim_C10_witness :
    GetForces [4, 2] (fun k => (k : ℝ)) (fun _ => 0) (3 * 2 + 1) =
      ((3 * 1 + 1 : ℕ) : ℝ) :=
  (claim_C10 [4, 2] (fun k => (k : ℝ)) (fun _ => 0) (by decide)).1 1 (by norm_num) 1
    (by norm_num)
